import Mathlib

/-!
Shallow embedding of the Scryfall-like card-search query engine of
`src/services/search.ts` (tokenizer, recursive-descent parser, field
resolver and predicate compiler), together with proofs about the claims
of the natural-language specification.

Modelling conventions:
* TypeScript strings are `String`; character scanning works on `List Char`.
* JavaScript `toLowerCase`/`toUpperCase` are modelled on ASCII via
  `Char.toLower`/`Char.toUpper` (the engine only case-converts ASCII
  query text and ASCII card data).
* Nullable SQL columns are `Option _`; JSONB arrays are `List String`;
  the JSONB legalities object is an association list.
* Each SQL fragment emitted by `fieldToCondition` is modelled by a named
  Lean predicate on a card record giving the fragment's row-level
  meaning, including SQL three-valued logic (a NULL comparison is not
  satisfied in a WHERE clause).  The `oc.`-aliased and plain spellings
  of the same fragment (the `defaultTable` / plain branches of the
  source) have the same row-level meaning and share one predicate;
  where the two branches genuinely differ (power/toughness are only
  available when `default_cards` is joined) the `dflt` flag is kept.
-/

/-! ## Character classes (JS regex classes used by the tokenizer) -/

/-- JS `\s` (ASCII part): space, tab, newline, carriage return, vertical
tab, form feed. -/
def isJsWs (c : Char) : Bool :=
  c.toNat = 32 || c.toNat = 9 || c.toNat = 10 || c.toNat = 13 ||
  c.toNat = 11 || c.toNat = 12

/-- `[a-z]` -/
def isLowerAlpha (c : Char) : Bool := 97 ≤ c.toNat && c.toNat ≤ 122

/-- `[A-Z]` -/
def isUpperAlpha (c : Char) : Bool := 65 ≤ c.toNat && c.toNat ≤ 90

/-- `[a-z]` with the `i` flag, i.e. `[a-zA-Z]`. -/
def isAsciiLetter (c : Char) : Bool := isLowerAlpha c || isUpperAlpha c

/-- `[0-9]` -/
def isDigitC (c : Char) : Bool := 48 ≤ c.toNat && c.toNat ≤ 57

/-- `[<>=!]`, the comparison-operator characters of field terms. -/
def isOpChar (c : Char) : Bool :=
  c.toNat = 60 || c.toNat = 62 || c.toNat = 61 || c.toNat = 33

/-- `[a-z0-9*]` with the `i` flag: the value class of the colon-less
field-term pattern. -/
def isNoColonValChar (c : Char) : Bool :=
  isAsciiLetter c || isDigitC c || c.toNat = 42

/-- JS `\w`: `[A-Za-z0-9_]` (used by the `\b` boundary of the OR rule). -/
def isWordChar (c : Char) : Bool :=
  isAsciiLetter c || isDigitC c || c.toNat = 95

/-- The character class of an unquoted field value: runs until
whitespace, `(`, `)` or end of input. -/
def isUnquotedValChar (c : Char) : Bool :=
  !(isJsWs c) && !(c == '(') && !(c == ')')

/-! ## JS string helpers -/

/-- JS `String.prototype.toLowerCase` (ASCII model). -/
def jsToLower (s : String) : String := String.mk (s.data.map Char.toLower)

/-- JS `String.prototype.toUpperCase` (ASCII model). -/
def jsToUpper (s : String) : String := String.mk (s.data.map Char.toUpper)

/-- JS `String.prototype.trim` (ASCII-whitespace model). -/
def jsTrim (s : String) : String :=
  String.mk (((s.data.dropWhile isJsWs).reverse.dropWhile isJsWs).reverse)

/-- Contiguous-sublist test on character lists (the meaning of a SQL
`LIKE` pattern of the shape percent-needle-percent on the haystack,
for a needle without wildcard characters). -/
def listIsInfix (needle : List Char) (hay : List Char) : Bool :=
  match hay with
  | [] => needle.isEmpty
  | _ :: t => needle.isPrefixOf hay || listIsInfix needle t

/-- Digits to the natural number they denote in base 10. -/
def natOfDigits (l : List Char) : Nat :=
  l.foldl (fun a c => a * 10 + (c.toNat - 48)) 0

/-- JS `parseInt(value, 10)`: skip leading whitespace, optional sign,
then a maximal run of decimal digits; `none` (NaN) when there is no
digit; any trailing garbage is ignored. -/
def jsParseInt (s : String) : Option Int :=
  let cs := s.data.dropWhile isJsWs
  let (neg, cs) :=
    match cs with
    | '-' :: t => (true, t)
    | '+' :: t => (false, t)
    | _ => (false, cs)
  let d := cs.takeWhile isDigitC
  if d.isEmpty then none
  else some (if neg then -(natOfDigits d : Int) else (natOfDigits d : Int))

/-- An exact decimal number `num * 10 ^ (- scale)` (the JS/SQL numbers
occurring here are all small decimals, represented exactly; comparisons
are the rational ones, by cross multiplication). -/
structure Dec where
  num : Int
  scale : Nat
deriving Repr, DecidableEq

/-- `10 ^ n` on naturals (kernel-computable power). -/
def pow10 : Nat → Nat
  | 0 => 1
  | n + 1 => 10 * pow10 n

/-- Rational comparison of two exact decimals. -/
def decLe (a b : Dec) : Bool :=
  decide (a.num * (pow10 b.scale : Int) ≤ b.num * (pow10 a.scale : Int))

/-- Rational equality of two exact decimals. -/
def decEqB (a b : Dec) : Bool :=
  a.num * (pow10 b.scale : Int) == b.num * (pow10 a.scale : Int)

/-- Strict rational comparison of two exact decimals. -/
def decLt (a b : Dec) : Bool :=
  decide (a.num * (pow10 b.scale : Int) < b.num * (pow10 a.scale : Int))

/-- JS `parseFloat(value)`: skip leading whitespace, optional sign,
decimal digits with optional fraction, optional exponent; `none` (NaN)
when the mantissa has no digit; trailing garbage is ignored.  Exact
decimal model of the parsed number. -/
def jsParseFloat (s : String) : Option Dec :=
  let cs := s.data.dropWhile isJsWs
  let (neg, cs) :=
    match cs with
    | '-' :: t => (true, t)
    | '+' :: t => (false, t)
    | _ => (false, cs)
  let d1 := cs.takeWhile isDigitC
  let cs1 := cs.drop d1.length
  let (d2, cs2) :=
    match cs1 with
    | '.' :: t => (t.takeWhile isDigitC, (t.dropWhile isDigitC : List Char))
    | _ => (([] : List Char), cs1)
  if d1.isEmpty && d2.isEmpty then none
  else
    let m : Int := (natOfDigits (d1 ++ d2) : Int)
    let mant : Dec := ⟨if neg then -m else m, d2.length⟩
    some
      (match cs2 with
      | 'e' :: t | 'E' :: t =>
        let (eneg, t2) :=
          match t with
          | '-' :: u => (true, u)
          | '+' :: u => (false, u)
          | _ => (false, t)
        let d3 := t2.takeWhile isDigitC
        if d3.isEmpty then mant
        else if eneg then ⟨mant.num, mant.scale + natOfDigits d3⟩
        else ⟨mant.num * (pow10 (natOfDigits d3) : Int), mant.scale⟩
      | _ => mant)

/-- The numeric filter regex of the power/toughness branches.  The
source writes it in a plain JS string, so the intended `\.` reaches the
regex engine as `.` (any character): digits, then optionally any single
character followed by more digits. -/
def jsNumericLike (s : String) : Bool :=
  let cs := s.data
  let d := cs.takeWhile isDigitC
  let r := cs.drop d.length
  !d.isEmpty &&
    (r.isEmpty ||
      match r with
      | _ :: rest => !rest.isEmpty && rest.all isDigitC
      | [] => true)

/-- PostgreSQL `::numeric` cast of a text value, as an exact decimal;
`none` when the text is not a valid numeric literal (the cast would
raise).  Only digit/point forms are needed here. -/
def pgNumeric (s : String) : Option Dec :=
  let cs := s.data
  let d1 := cs.takeWhile isDigitC
  let r := cs.drop d1.length
  if d1.isEmpty then none
  else
    match r with
    | [] => some ⟨(natOfDigits d1 : Int), 0⟩
    | '.' :: d2 =>
      if !d2.isEmpty && d2.all isDigitC then
        some ⟨(natOfDigits (d1 ++ d2) : Int), d2.length⟩
      else none
    | _ => none

/-! ## Color vocabulary (`COLOR_MAP`, `COLOR_COMBINATION_MAP`,
`normalizeColor`, `parseColorSet`) -/

/-- `COLOR_MAP`: color names and letters to single-letter codes. -/
def colorMap : List (String × String) :=
  [("white", "W"), ("blue", "U"), ("black", "B"), ("red", "R"), ("green", "G"),
   ("w", "W"), ("u", "U"), ("b", "B"), ("r", "R"), ("g", "G"),
   ("colorless", "C"), ("c", "C"), ("multicolor", "M"), ("m", "M")]

/-- `COLOR_COMBINATION_MAP`: guild/shard/wedge/four-color/college names
to color combinations, in the source's entry order. -/
def colorCombinationMap : List (String × List String) :=
  [("azorius", ["W", "U"]), ("dimir", ["U", "B"]), ("rakdos", ["B", "R"]),
   ("gruul", ["R", "G"]), ("selesnya", ["G", "W"]), ("orzhov", ["W", "B"]),
   ("izzet", ["U", "R"]), ("golgari", ["B", "G"]), ("boros", ["R", "W"]),
   ("simic", ["G", "U"]),
   ("bant", ["G", "W", "U"]), ("esper", ["W", "U", "B"]),
   ("grixis", ["U", "B", "R"]), ("jund", ["B", "R", "G"]),
   ("naya", ["R", "G", "W"]),
   ("abzan", ["W", "B", "G"]), ("jeskai", ["U", "R", "W"]),
   ("sultai", ["B", "G", "U"]), ("mardu", ["R", "W", "B"]),
   ("temur", ["G", "U", "R"]),
   ("chaos", ["R", "G", "W", "U"]), ("aggression", ["R", "G", "W", "B"]),
   ("altruism", ["G", "W", "U", "B"]), ("growth", ["R", "W", "U", "B"]),
   ("artifice", ["R", "G", "U", "B"]),
   ("quandrix", ["G", "U"]), ("silverquill", ["W", "B"]),
   ("witherbloom", ["B", "G"]), ("prismari", ["U", "R"]),
   ("lorehold", ["R", "W"])]

/-- `normalizeColor`: table lookup on the lowercased string, else
uppercase pass-through. -/
def normalizeColor (color : String) : String :=
  match colorMap.lookup (jsToLower color) with
  | some s => s
  | none => jsToUpper color

/-- Lexicographic comparison of character lists by code point (the
default JS `Array.prototype.sort()` string comparison, restricted to
the one-code-unit strings that occur here). -/
def listLexLe : List Char → List Char → Bool
  | [], _ => true
  | _ :: _, [] => false
  | x :: xs, y :: ys =>
    if x.toNat < y.toNat then true
    else if x.toNat = y.toNat then listLexLe xs ys
    else false

/-- The string order used by the JS sort. -/
def jsStrLe (a b : String) : Bool := listLexLe a.data b.data

/-- JS `Array.prototype.sort()` on strings: lexicographic ascending
order (modelled by insertion sort, which agrees with any comparison
sort on the same multiset up to the antisymmetry of the order). -/
def jsSortStrings (l : List String) : List String :=
  List.insertionSort (fun a b : String => jsStrLe a b = true) l

/-- The letter-by-letter accumulation loop of `parseColorSet`: normalize
each character, push it if non-empty and not already present. -/
def collectColors : List Char → List String → List String
  | [], acc => acc
  | c :: cs, acc =>
    let nc := normalizeColor (String.mk [c])
    if nc ≠ "" && !(acc.contains nc) then collectColors cs (acc ++ [nc])
    else collectColors cs acc

/-- `parseColorSet`: named combination (sorted copy of the table entry),
the colorless/multicolor specials, or letter-by-letter parsing followed
by a sort. -/
def parseColorSet (colorStr : String) : List String :=
  let normalized := jsToLower colorStr
  match colorCombinationMap.lookup normalized with
  | some entry => jsSortStrings entry
  | none =>
    if normalized = "colorless" || normalized = "c" then ["C"]
    else if normalized = "multicolor" || normalized = "m" then ["M"]
    else jsSortStrings (collectColors normalized.data [])

/-! ## Card records

One row of the joined `default_cards INNER JOIN oracle_cards` relation
(the shape filtered by `searchOracleCards`).  `power`/`toughness` are
the `dc.data->>'power'` / `dc.data->>'toughness'` JSON text extractions
(NULL when absent). -/

structure Card where
  oracleId : String
  name : String
  manaCost : Option String
  cmc : Option Int
  typeLine : String
  oracleText : Option String
  colors : Option (List String)
  colorIdentity : Option (List String)
  keywords : Option (List String)
  legalities : Option (List (String × String))
  power : Option String
  toughness : Option String
deriving Repr, DecidableEq

/-! ## Row-level meaning of the emitted SQL fragments -/

/-- `like(lower(col), '%' + value.toLowerCase() + '%')` on a NOT NULL
text column. -/
def sqlLikeContains (col : String) (value : String) : Bool :=
  listIsInfix (jsToLower value).data (jsToLower col).data

/-- The same `LIKE` on a nullable column: NULL never matches. -/
def sqlOptLikeContains (col : Option String) (value : String) : Bool :=
  match col with
  | some s => sqlLikeContains s value
  | none => false

/-- `oc.cmc % 2 = 0` (NULL cmc never matches). -/
def sqlCmcEven (c : Card) : Bool :=
  match c.cmc with
  | some m => m % 2 == 0
  | none => false

/-- `oc.cmc % 2 = 1` (NULL cmc never matches). -/
def sqlCmcOdd (c : Card) : Bool :=
  match c.cmc with
  | some m => m % 2 == 1
  | none => false

/-- The comparison switch of the cmc branch (`=`, `<=`, `>=`, `<`, `>`,
`!=`, anything else defaulting to `=`), on a nullable integer column. -/
def sqlCmcCmp (operator : String) (n : Int) (c : Card) : Bool :=
  match c.cmc with
  | none => false
  | some m =>
    match operator with
    | "=" => m == n
    | "<=" => decide (m ≤ n)
    | ">=" => decide (m ≥ n)
    | "<" => decide (m < n)
    | ">" => decide (m > n)
    | "!=" => !(m == n)
    | _ => m == n

/-- The comparison switch of the power/toughness branches: the numeric
regex filter, then `::numeric` comparison against the parsed query
number (NULL attribute never matches; a value accepted by the buggy
regex but rejected by the cast is modelled as no match). -/
def sqlNumCmp (attr : Card → Option String) (operator : String) (q : Dec)
    (c : Card) : Bool :=
  match attr c with
  | none => false
  | some s =>
    jsNumericLike s &&
      match pgNumeric s with
      | none => false
      | some x =>
        match operator with
        | "=" => decEqB x q
        | "<=" => decLe x q
        | ">=" => decLe q x
        | "<" => decLt x q
        | ">" => decLt q x
        | "!=" => !(decEqB x q)
        | _ => decEqB x q

/-- The `pow>tou` special case: both attributes pass the numeric filter
and power is strictly greater than toughness. -/
def sqlPowGtTou (c : Card) : Bool :=
  match c.power, c.toughness with
  | some p, some t =>
    jsNumericLike p && jsNumericLike t &&
      match pgNumeric p, pgNumeric t with
      | some x, some y => decLt y x
      | _, _ => false
  | _, _ => false

/-- `col = target::jsonb`: structural (order-sensitive) JSONB array
equality; NULL never matches. -/
def sqlJsonbArrEq (attr : Card → Option (List String)) (target : List String)
    (c : Card) : Bool :=
  match attr c with
  | some l => l == target
  | none => false

/-- The `<=` fragment: `col IS NULL OR NOT EXISTS (element of col not in
target)`, i.e. the stored set is a subset of the target (NULL counts as
empty and matches). -/
def sqlJsonbSubset (attr : Card → Option (List String)) (target : List String)
    (c : Card) : Bool :=
  match attr c with
  | none => true
  | some l => l.all (fun x => target.contains x)

/-- The `>=` fragment: `NOT EXISTS (target element not among the stored
elements)`, where a NULL column contributes no elements. -/
def sqlJsonbSuperset (attr : Card → Option (List String)) (target : List String)
    (c : Card) : Bool :=
  target.all (fun t => ((attr c).getD []).contains t)

/-- `col != target::jsonb` (NULL never matches, by SQL three-valued
logic). -/
def sqlJsonbNe (attr : Card → Option (List String)) (target : List String)
    (c : Card) : Bool :=
  match attr c with
  | some l => !(l == target)
  | none => false

/-- The default (no-operator) fragment `col ?| ARRAY[...]`: some stored
element is in the target set; NULL never matches. -/
def sqlJsonbOverlap (attr : Card → Option (List String)) (target : List String)
    (c : Card) : Bool :=
  match attr c with
  | some l => l.any (fun x => target.contains x)
  | none => false

/-- The keyword fragment: `EXISTS (element k of keywords with lower(k) =
value.toLowerCase())`. -/
def sqlKeywordHas (value : String) (c : Card) : Bool :=
  (c.keywords.getD []).any (fun k => jsToLower k == jsToLower value)

/-- The legality fragment: `legalities->>format = 'status'` (NULL object
or absent key never matches). -/
def sqlLegality (fmt : String) (status : String) (c : Card) : Bool :=
  match c.legalities with
  | some m => m.lookup fmt == some status
  | none => false

/-! ## Field resolver (`fieldToCondition`) -/

/-- The field alias table `fieldMap` of `fieldToCondition`. -/
def fieldMap : List (String × String) :=
  [("n", "name"), ("name", "name"),
   ("t", "type"), ("type", "type"),
   ("o", "oracle"), ("oracle", "oracle"),
   ("c", "colors"), ("color", "colors"), ("colors", "colors"),
   ("ci", "color_identity"), ("id", "color_identity"),
   ("identity", "color_identity"), ("color_identity", "color_identity"),
   ("cmc", "cmc"), ("mv", "cmc"), ("manavalue", "cmc"),
   ("m", "mana_cost"), ("mana", "mana_cost"),
   ("k", "keyword"), ("kw", "keyword"), ("keyword", "keyword"),
   ("f", "format"), ("format", "format"),
   ("banned", "banned"), ("restricted", "restricted"),
   ("pow", "power"), ("power", "power"),
   ("tou", "toughness"), ("toughness", "toughness"),
   ("pt", "power_toughness"), ("powtou", "power_toughness")]

/-- The format allow-list `validFormats`. -/
def validFormats : List String :=
  ["standard", "future", "historic", "gladiator", "pioneer", "explorer",
   "modern", "legacy", "pauper", "vintage", "penny", "commander",
   "oathbreaker", "brawl", "historicbrawl", "alchemy", "paupercommander",
   "duel", "oldschool", "premodern", "predh"]

/-- The operator switch shared by the colors and color-identity blocks. -/
def colorCondition (attr : Card → Option (List String)) (operator : String)
    (colorSet : List String) : Card → Bool :=
  match operator with
  | "=" => sqlJsonbArrEq attr colorSet
  | "<=" => sqlJsonbSubset attr colorSet
  | ">=" => sqlJsonbSuperset attr colorSet
  | "!" => sqlJsonbNe attr colorSet
  | "!=" => sqlJsonbNe attr colorSet
  | _ => sqlJsonbOverlap attr colorSet

/-- `fieldToCondition`: resolve a field AST node to the row-level
meaning of the emitted SQL condition, or `none` (the source's `null`,
"no opinion") for unknown fields and unusable values.  `dflt` is
whether `default_cards` is joined (the `defaultTable` argument); the
branches of the source whose two SQL spellings have the same row-level
meaning are not duplicated. -/
def fieldToCondition (dflt : Bool) (field operator value : String) :
    Option (Card → Bool) :=
  match fieldMap.lookup field with
  | none => none
  | some nf =>
    if nf = "name" then some (fun c => sqlLikeContains c.name value)
    else if nf = "type" then some (fun c => sqlLikeContains c.typeLine value)
    else if nf = "oracle" then some (fun c => sqlOptLikeContains c.oracleText value)
    else if nf = "cmc" then
      if jsToLower value = "even" then some sqlCmcEven
      else if jsToLower value = "odd" then some sqlCmcOdd
      else
        match jsParseInt value with
        | none => none
        | some n => some (sqlCmcCmp operator n)
    else if nf = "mana_cost" then
      some (fun c => sqlOptLikeContains c.manaCost value)
    else if nf = "power" || nf = "pow" then
      if !dflt then none
      else if jsToLower value = "tou" || jsToLower value = "toughness" then
        some sqlPowGtTou
      else
        match jsParseFloat value with
        | none => none
        | some q => some (sqlNumCmp (fun c => c.power) operator q)
    else if nf = "toughness" || nf = "tou" then
      if !dflt then none
      else
        match jsParseFloat value with
        | none => none
        | some q => some (sqlNumCmp (fun c => c.toughness) operator q)
    else if nf = "colors" then
      let colorSet := parseColorSet value
      if colorSet.isEmpty then none
      else some (colorCondition (fun c => c.colors) operator colorSet)
    else if nf = "color_identity" then
      let colorSet := parseColorSet value
      if colorSet.isEmpty then none
      else some (colorCondition (fun c => c.colorIdentity) operator colorSet)
    else if nf = "keyword" then some (sqlKeywordHas value)
    else if nf = "format" then
      if validFormats.contains (jsToLower value) then
        some (sqlLegality (jsToLower value) "legal")
      else none
    else if nf = "banned" then
      if validFormats.contains (jsToLower value) then
        some (sqlLegality (jsToLower value) "banned")
      else none
    else if nf = "restricted" then
      if validFormats.contains (jsToLower value) then
        some (sqlLegality (jsToLower value) "restricted")
      else none
    else none

/-- Evaluate an optional compiled condition at one card (used to state
claims without comparing functions). -/
def condMatches (o : Option (Card → Bool)) (c : Card) : Option Bool :=
  o.map (fun p => p c)

/-! ## Three-valued row semantics

A SQL condition over nullable columns evaluates to TRUE, FALSE or
UNKNOWN; `WHERE` keeps only TRUE rows.  The `Card → Bool` fragments
above are the matched-row (TRUE-valued) collapse, which is exact in
positive position and under AND/OR; the compiled condition tree also
contains `NOT`, under which UNKNOWN must be tracked, so the tree is
compiled below over `Option Bool` (`none` = UNKNOWN). -/

/-- SQL `NOT`: UNKNOWN stays UNKNOWN. -/
def sqlNot3 (v : Option Bool) : Option Bool :=
  v.map (fun b => !b)

/-- SQL `AND` (Kleene): FALSE dominates, UNKNOWN otherwise infects. -/
def sqlAnd3 (x y : Option Bool) : Option Bool :=
  match x, y with
  | some false, _ => some false
  | _, some false => some false
  | some true, some true => some true
  | _, _ => none

/-- SQL `OR` (Kleene): TRUE dominates, UNKNOWN otherwise infects. -/
def sqlOr3 (x y : Option Bool) : Option Bool :=
  match x, y with
  | some true, _ => some true
  | _, some true => some true
  | some false, some false => some false
  | _, _ => none

/-- `LIKE` on a nullable text column: NULL is UNKNOWN. -/
def sqlOptLikeContains3 (col : Option String) (value : String) : Option Bool :=
  col.map (fun s => sqlLikeContains s value)

/-- `oc.cmc % 2 = 0` with NULL cmc UNKNOWN. -/
def sqlCmcEven3 (c : Card) : Option Bool :=
  c.cmc.map (fun m => m % 2 == 0)

/-- `oc.cmc % 2 = 1` with NULL cmc UNKNOWN. -/
def sqlCmcOdd3 (c : Card) : Option Bool :=
  c.cmc.map (fun m => m % 2 == 1)

/-- The cmc comparison switch with NULL cmc UNKNOWN. -/
def sqlCmcCmp3 (operator : String) (n : Int) (c : Card) : Option Bool :=
  c.cmc.map (fun m =>
    match operator with
    | "=" => m == n
    | "<=" => decide (m ≤ n)
    | ">=" => decide (m ≥ n)
    | "<" => decide (m < n)
    | ">" => decide (m > n)
    | "!=" => !(m == n)
    | _ => m == n)

/-- The power/toughness comparison `attr ~ regex AND attr::numeric OP q`:
a NULL attribute makes both conjuncts (and so the fragment) UNKNOWN; on a
non-NULL attribute the fragment is boolean (a value accepted by the buggy
regex but rejected by the cast is modelled as no match). -/
def sqlNumCmp3 (attr : Card → Option String) (operator : String) (q : Dec)
    (c : Card) : Option Bool :=
  (attr c).map (fun s =>
    jsNumericLike s &&
      match pgNumeric s with
      | none => false
      | some x =>
        match operator with
        | "=" => decEqB x q
        | "<=" => decLe x q
        | ">=" => decLe q x
        | "<" => decLt x q
        | ">" => decLt q x
        | "!=" => !(decEqB x q)
        | _ => decEqB x q)

/-- The `pow>tou` fragment `p ~ regex AND t ~ regex AND p::numeric >
t::numeric` under three-valued logic: a NULL attribute makes its regex
conjunct and the comparison UNKNOWN (so a FALSE regex conjunct on the
other attribute still decides the fragment). -/
def sqlPowGtTou3 (c : Card) : Option Bool :=
  sqlAnd3 (sqlAnd3 (c.power.map jsNumericLike) (c.toughness.map jsNumericLike))
    (match c.power, c.toughness with
     | some p, some t =>
       some (match pgNumeric p, pgNumeric t with
             | some x, some y => decLt y x
             | _, _ => false)
     | _, _ => none)

/-- The colors operator switch under three-valued logic: the raw jsonb
operators (`=`, `!=`, `?|`) are UNKNOWN on a NULL column, while the
`IS NULL OR NOT EXISTS` subset fragment and the `NOT EXISTS` superset
fragment are boolean. -/
def colorCondition3 (attr : Card → Option (List String)) (operator : String)
    (colorSet : List String) : Card → Option Bool :=
  match operator with
  | "=" => fun c => (attr c).map (fun l => l == colorSet)
  | "<=" => fun c => some (sqlJsonbSubset attr colorSet c)
  | ">=" => fun c => some (sqlJsonbSuperset attr colorSet c)
  | "!" => fun c => (attr c).map (fun l => !(l == colorSet))
  | "!=" => fun c => (attr c).map (fun l => !(l == colorSet))
  | _ => fun c => (attr c).map (fun l => l.any (fun x => colorSet.contains x))

/-- The legality fragment `legalities->>format = 'status'`: a NULL
object, or an absent key (`->>` yields SQL NULL), is UNKNOWN. -/
def sqlLegality3 (fmt : String) (status : String) (c : Card) : Option Bool :=
  match c.legalities with
  | none => none
  | some m =>
    match m.lookup fmt with
    | none => none
    | some s => some (s == status)

/-- `fieldToCondition`, with the emitted SQL's full three-valued row
semantics (same resolution structure as `fieldToCondition`, whose
predicates are the TRUE-valued collapse of these).  The keyword
fragment stays boolean: `EXISTS` is two-valued and
`jsonb_array_elements_text(NULL)` yields no rows. -/
def fieldToCondition3 (dflt : Bool) (field operator value : String) :
    Option (Card → Option Bool) :=
  match fieldMap.lookup field with
  | none => none
  | some nf =>
    if nf = "name" then some (fun c => some (sqlLikeContains c.name value))
    else if nf = "type" then
      some (fun c => some (sqlLikeContains c.typeLine value))
    else if nf = "oracle" then
      some (fun c => sqlOptLikeContains3 c.oracleText value)
    else if nf = "cmc" then
      if jsToLower value = "even" then some sqlCmcEven3
      else if jsToLower value = "odd" then some sqlCmcOdd3
      else
        match jsParseInt value with
        | none => none
        | some n => some (sqlCmcCmp3 operator n)
    else if nf = "mana_cost" then
      some (fun c => sqlOptLikeContains3 c.manaCost value)
    else if nf = "power" || nf = "pow" then
      if !dflt then none
      else if jsToLower value = "tou" || jsToLower value = "toughness" then
        some sqlPowGtTou3
      else
        match jsParseFloat value with
        | none => none
        | some q => some (sqlNumCmp3 (fun c => c.power) operator q)
    else if nf = "toughness" || nf = "tou" then
      if !dflt then none
      else
        match jsParseFloat value with
        | none => none
        | some q => some (sqlNumCmp3 (fun c => c.toughness) operator q)
    else if nf = "colors" then
      let colorSet := parseColorSet value
      if colorSet.isEmpty then none
      else some (colorCondition3 (fun c => c.colors) operator colorSet)
    else if nf = "color_identity" then
      let colorSet := parseColorSet value
      if colorSet.isEmpty then none
      else some (colorCondition3 (fun c => c.colorIdentity) operator colorSet)
    else if nf = "keyword" then some (fun c => some (sqlKeywordHas value c))
    else if nf = "format" then
      if validFormats.contains (jsToLower value) then
        some (sqlLegality3 (jsToLower value) "legal")
      else none
    else if nf = "banned" then
      if validFormats.contains (jsToLower value) then
        some (sqlLegality3 (jsToLower value) "banned")
      else none
    else if nf = "restricted" then
      if validFormats.contains (jsToLower value) then
        some (sqlLegality3 (jsToLower value) "restricted")
      else none
    else none

/-! ## AST and predicate compiler -/

/-- AST node types of the query parser. -/
inductive Ast where
  | and (left right : Ast)
  | or (left right : Ast)
  | not (operand : Ast)
  | field (field operator value : String)
  | plainText (value : String)
deriving Repr, DecidableEq

/-- `plainTextToCondition`: name OR oracle-text containment (the
TRUE-valued collapse of `plainTextToCondition3`). -/
def plainTextToCondition (value : String) (c : Card) : Bool :=
  sqlLikeContains c.name value || sqlOptLikeContains c.oracleText value

/-- `plainTextToCondition`: `name LIKE .. OR oracle_text LIKE ..` under
three-valued logic (a NULL oracle text leaves a non-matching name
UNKNOWN). -/
def plainTextToCondition3 (value : String) (c : Card) : Option Bool :=
  sqlOr3 (some (sqlLikeContains c.name value))
    (sqlOptLikeContains3 c.oracleText value)

/-- `astToCondition`: compile the AST to an optional three-valued
condition.  A `none` ("no opinion") operand of AND/OR is dropped; NOT
of `none` is `none`; the connectives are SQL AND/OR/NOT over
TRUE/FALSE/UNKNOWN. -/
def astToCondition (dflt : Bool) : Ast → Option (Card → Option Bool)
  | .and l r =>
    match astToCondition dflt l with
    | none => astToCondition dflt r
    | some lp =>
      match astToCondition dflt r with
      | none => some lp
      | some rp => some (fun c => sqlAnd3 (lp c) (rp c))
  | .or l r =>
    match astToCondition dflt l with
    | none => astToCondition dflt r
    | some lp =>
      match astToCondition dflt r with
      | none => some lp
      | some rp => some (fun c => sqlOr3 (lp c) (rp c))
  | .not x =>
    match astToCondition dflt x with
    | none => none
    | some p => some (fun c => sqlNot3 (p c))
  | .field f op v => fieldToCondition3 dflt f op v
  | .plainText v => some (plainTextToCondition3 v)

/-! ## Tokenizer -/

/-- Token types (the source's `TokenType`; `OPERATOR`, `VALUE` and `AND`
are declared but never produced). -/
inductive TokenType where
  | FIELD | OPERATOR | VALUE | AND | OR | NOT | LPAREN | RPAREN
  | QUOTED_STRING | PLAIN_TEXT
deriving Repr, DecidableEq

/-- A token: type, value text, and source span.  Every token the source
pushes has `end = start + consumed characters`, so the scanner below
only records the start and the consumed count. -/
structure Token where
  type : TokenType
  value : String
  start : Nat
  stop : Nat
deriving Repr, DecidableEq

/-- The quoted-string scanning loop (shared by the quoted-string rule
and quoted field values): consume until an unescaped closing quote or
end of input, a backslash escaping the following character.  Returns
the unescaped content, the number of characters consumed (including the
closing quote, excluding the opening one), and the rest. -/
def scanQuoted : List Char → (List Char × Nat × List Char)
  | [] => ([], 0, [])
  | '"' :: rest => ([], 1, rest)
  | '\\' :: d :: rest =>
    let (v, n, r) := scanQuoted rest
    (d :: v, n + 2, r)
  | c :: rest =>
    let (v, n, r) := scanQuoted rest
    (c :: v, n + 1, r)

/-- Whether a `-` at the current position is a unary NOT: at start of
input, or preceded by whitespace or `(`. -/
def qualNot (prev : Option Char) : Bool :=
  match prev with
  | none => true
  | some c => isJsWs c || c == '('

/-- The whole-word OR test `\bOR\b` (case-insensitive) at the current
position: the leading boundary always holds before a letter, the
trailing one requires the next character to not be a word character. -/
def isOrAt (cs : List Char) : Bool :=
  match cs with
  | c1 :: c2 :: rest =>
    (c1 == 'O' || c1 == 'o') && (c2 == 'R' || c2 == 'r') &&
      (match rest with
       | [] => true
       | d :: _ => !(isWordChar d))
  | _ => false

/-- Value extraction of a colon field term: a quoted value (scanned by
the shared quoted-string loop) or an unquoted run; returns the value
characters and the number of characters consumed. -/
def scanFieldValue (vrest : List Char) : List Char × Nat :=
  match vrest with
  | '"' :: vtail => ((scanQuoted vtail).1, 1 + (scanQuoted vtail).2.1)
  | _ => (vrest.takeWhile isUnquotedValChar, (vrest.takeWhile isUnquotedValChar).length)

/-- One scan step of `tokenize` at the current position: the emitted
token (if any) without its span, and the number of characters consumed
(always at least one on nonempty input).  The branch order mirrors the
source: whitespace, quoted string, parentheses, unary minus, field term
with colon, field term without colon, OR, plain word. -/
def tokStep (prev : Option Char) (cs : List Char) :
    Option (TokenType × String) × Nat :=
  match cs with
  | [] => (none, 1)
  | c :: rest =>
    if isJsWs c then (none, 1)
    else if c == '"' then
      let (v, n, _) := scanQuoted rest
      (some (.QUOTED_STRING, String.mk v), 1 + n)
    else if c == '(' then (some (.LPAREN, "("), 1)
    else if c == ')' then (some (.RPAREN, ")"), 1)
    else if c == '-' && qualNot prev then (some (.NOT, "-"), 1)
    else
      let L := cs.takeWhile isAsciiLetter
      let afterL := cs.drop L.length
      let ops := afterL.takeWhile isOpChar
      let afterOps := afterL.drop ops.length
      if !L.isEmpty && afterOps.head? == some ':' then
        -- field term with colon: extract a quoted or unquoted value
        let vrest := afterOps.drop 1
        (some (.FIELD,
          jsToLower (String.mk L) ++ String.mk ops ++ ":" ++
            String.mk (scanFieldValue vrest).1),
          L.length + ops.length + 1 + (scanFieldValue vrest).2)
      else if !L.isEmpty && !ops.isEmpty &&
          !(afterOps.takeWhile isNoColonValChar).isEmpty then
        -- field term without colon (e.g. pow>=3, pow>tou)
        let v := afterOps.takeWhile isNoColonValChar
        (some (.FIELD,
          jsToLower (String.mk L) ++ String.mk ops ++ ":" ++ String.mk v),
          L.length + ops.length + v.length)
      else if isOrAt cs then (some (.OR, "OR"), 2)
      else
        let w := cs.takeWhile isUnquotedValChar
        (some (.PLAIN_TEXT, String.mk w), w.length)

/-- The scan loop of `tokenize`, fuelled (a fuel of at least the number
of remaining characters suffices, each step consuming at least one).
`prev` is the character just before the current position, `pos` the
current position. -/
def tokenizeAux : Nat → Option Char → Nat → List Char → List Token
  | 0, _, _, _ => []
  | _ + 1, _, _, [] => []
  | fuel + 1, prev, pos, c :: rest =>
    let (tk, n) := tokStep prev (c :: rest)
    let consumed := (c :: rest).take n
    let newPrev :=
      match consumed.getLast? with
      | some d => some d
      | none => prev
    let toks := tokenizeAux fuel newPrev (pos + n) ((c :: rest).drop n)
    match tk with
    | some (tt, v) => ⟨tt, v, pos, pos + n⟩ :: toks
    | none => toks

/-- `tokenize`: scan the whole string. -/
def tokenize (s : String) : List Token :=
  tokenizeAux (s.data.length + 1) none 0 s.data

/-! ## Parser -/

/-- The JS names of the token types (used in parser error messages). -/
def tokenTypeName : TokenType → String
  | .FIELD => "FIELD"
  | .OPERATOR => "OPERATOR"
  | .VALUE => "VALUE"
  | .AND => "AND"
  | .OR => "OR"
  | .NOT => "NOT"
  | .LPAREN => "LPAREN"
  | .RPAREN => "RPAREN"
  | .QUOTED_STRING => "QUOTED_STRING"
  | .PLAIN_TEXT => "PLAIN_TEXT"

/-- Re-split a FIELD token's stored text by the pattern
`letters, optional operator characters, colon, nonempty value`
(the source's `^([a-z]+)([<>=!]+)?:(.+)$` with the `i` flag), returning
the lowercased field name, the operator and the value. -/
def splitFieldToken (s : String) : Option (String × String × String) :=
  let cs := s.data
  let L := cs.takeWhile isAsciiLetter
  let afterL := cs.drop L.length
  let ops := afterL.takeWhile isOpChar
  let afterOps := afterL.drop ops.length
  if L.isEmpty then none
  else
    match afterOps with
    | ':' :: v =>
      if v.isEmpty then none
      else some (jsToLower (String.mk L), String.mk ops, String.mk v)
    | _ => none

/-- Results of the recursive-descent parsing functions: an error, or a
node together with the unconsumed tokens. -/
abbrev PRes := Except String (Ast × List Token)

/-!
The source parser is a set of mutually recursive functions over a
cursor into the token array.  They are modelled as functions from the
unconsumed token list; the loops of `parseOr`/`parseAnd` become the
`orLoop`/`andLoop` functions.  Recursion is well founded because every
successful parse consumes at least one token; the `if h : _` guards
make that measure available to the termination checker (the guarded
branches are unreachable, see the success cases of the lemmas below).
-/

mutual

/-- `parseTerm`: parenthesized expression, field term, or plain text. -/
def parseTermF : (ts : List Token) → PRes
  | [] => .error "Unexpected end of query"
  | t :: rest =>
    match t.type with
    | .LPAREN =>
      match parseOrF rest with
      | .error e => .error e
      | .ok (a, rem) =>
        match rem with
        | r :: rem2 =>
          if r.type = .RPAREN then .ok (a, rem2)
          else .error "Unmatched opening parenthesis"
        | [] => .error "Unmatched opening parenthesis"
    | .FIELD =>
      match splitFieldToken t.value with
      | some (f, op, v) => .ok (.field f op v, rest)
      | none => .error ("Invalid field syntax: " ++ t.value)
    | .QUOTED_STRING => .ok (.plainText t.value, rest)
    | .PLAIN_TEXT => .ok (.plainText t.value, rest)
    | _ =>
      .error ("Unexpected token: " ++ tokenTypeName t.type ++
        " at position " ++ toString t.start)
termination_by ts => ts.length * 8

/-- `parseNot`: a chain of `-` followed by a term (right-associative). -/
def parseNotF : (ts : List Token) → PRes
  | t :: rest =>
    if t.type = .NOT then
      match parseNotF rest with
      | .error e => .error e
      | .ok (a, rem) => .ok (.not a, rem)
    else parseTermF (t :: rest)
  | [] => parseTermF []
termination_by ts => ts.length * 8 + 1

/-- The implicit-AND loop of `parseAnd`: keep absorbing adjacent terms
until OR, a closing parenthesis, or end of input. -/
def andLoopF : Ast → (ts : List Token) → PRes
  | left, [] => .ok (left, [])
  | left, t :: rest =>
    if t.type = .OR || t.type = .RPAREN then .ok (left, t :: rest)
    else
      match parseNotF (t :: rest) with
      | .error e => .error e
      | .ok (r, rem) =>
        if _h : rem.length < rest.length + 1 then andLoopF (.and left r) rem
        else .error "parser invariant violation"
termination_by _ ts => ts.length * 8 + 2

/-- `parseAnd`: one `parseNot`, then the implicit-AND loop. -/
def parseAndF (ts : List Token) : PRes :=
  match parseNotF ts with
  | .error e => .error e
  | .ok (l, rem) =>
    if _h : rem.length < ts.length then andLoopF l rem
    else .error "parser invariant violation"
termination_by ts.length * 8 + 3

/-- The OR loop of `parseOr`: left-associative chain of OR nodes. -/
def orLoopF : Ast → (ts : List Token) → PRes
  | left, [] => .ok (left, [])
  | left, t :: rest =>
    if t.type = .OR then
      match parseAndF rest with
      | .error e => .error e
      | .ok (r, rem) =>
        if _h : rem.length < rest.length + 1 then orLoopF (.or left r) rem
        else .error "parser invariant violation"
    else .ok (left, t :: rest)
termination_by _ ts => ts.length * 8 + 4

/-- `parseOr` (= `parseExpression`): one `parseAnd`, then the OR loop. -/
def parseOrF (ts : List Token) : PRes :=
  match parseAndF ts with
  | .error e => .error e
  | .ok (l, rem) =>
    if _h : rem.length < ts.length then orLoopF l rem
    else .error "parser invariant violation"
termination_by ts.length * 8 + 5

end

/-- `parse`: a full expression, requiring all tokens to be consumed. -/
def parseTokens (ts : List Token) : Except String Ast :=
  match parseOrF ts with
  | .error e => .error e
  | .ok (a, rem) =>
    match rem with
    | [] => .ok a
    | t :: _ => .error ("Unexpected token at position " ++ toString t.start)

/-- `parseQuery`: reject empty/whitespace-only queries, tokenize the
trimmed query, parse, and wrap any tokenizer/parser failure message. -/
def parseQueryF (query : String) : Except String Ast :=
  if (jsTrim query).length = 0 then .error "Query cannot be empty"
  else
    let ts := tokenize (jsTrim query)
    if ts.length = 0 then .error "Query parsing error: Query contains no valid tokens"
    else
      match parseTokens ts with
      | .ok a => .ok a
      | .error m => .error ("Query parsing error: " ++ m)

/-- `searchOracleCards`: parse the query, compile the AST against the
joined `default_cards`/`oracle_cards` relation, return no rows when the
whole query compiled to "no opinion", else keep the rows where the
`WHERE` condition is TRUE (not FALSE or UNKNOWN) and truncate to
`limit`. -/
def searchF (query : String) (limit : Nat) (corpus : List Card) :
    Except String (List Card) :=
  match parseQueryF query with
  | .error e => .error e
  | .ok ast =>
    match astToCondition true ast with
    | none => .ok []
    | some p => .ok ((corpus.filter (fun c => p c == some true)).take limit)

/-- Shift a token's source span (the scan of a suffix of the query at a
later position produces the same tokens with shifted spans). -/
def tokShift (k : Nat) (t : Token) : Token :=
  { t with start := t.start + k, stop := t.stop + k }

/-- Equivalence of two optional compiled conditions: both no-opinion,
or both conditions with the same three-valued result on every card. -/
def predEquiv (o1 o2 : Option (Card → Option Bool)) : Prop :=
  match o1, o2 with
  | none, none => True
  | some p, some q => ∀ c, p c = q c
  | _, _ => False

/-- Equivalence of two AST nodes under compilation, in both table
modes. -/
def condEquiv (a b : Ast) : Prop :=
  ∀ d, predEquiv (astToCondition d a) (astToCondition d b)

/-- A sample card used in the double-negation analysis: a creature
whose (non-NULL) name and rules text contain none of the probe letters,
so every plain-text condition on it is boolean. -/
def cardZ : Card :=
  { oracleId := "z1", name := "zzz", manaCost := some "{1}",
    cmc := some 1, typeLine := "Creature", oracleText := some "",
    colors := some [], colorIdentity := some [], keywords := none,
    legalities := none, power := some "1", toughness := some "1" }

/-- A sample card with a NULL oracle text: a plain-text condition that
fails on its name is UNKNOWN on this row, and so is its negation. -/
def cardU : Card :=
  { oracleId := "u1", name := "zzz", manaCost := some "{1}",
    cmc := some 1, typeLine := "Creature", oracleText := none,
    colors := some [], colorIdentity := some [], keywords := none,
    legalities := none, power := some "1", toughness := some "1" }

/-! ## The boolean fragments are the TRUE-valued collapse

Each `Card → Bool` fragment above equals `== some true` of its
three-valued counterpart, and `fieldToCondition` is the image of
`fieldToCondition3` under that collapse: the boolean resolver describes
exactly the rows the emitted SQL condition matches. -/

theorem optSomeTrue (b : Bool) : (some b == some true) = b := by
  cases b <;> rfl

theorem sqlAnd3_some_some (a b : Bool) :
    sqlAnd3 (some a) (some b) = some (a && b) := by
  rcases a <;> rcases b <;> rfl

theorem sqlOr3_some_some (a b : Bool) :
    sqlOr3 (some a) (some b) = some (a || b) := by
  rcases a <;> rcases b <;> rfl

theorem sqlPowGtTou_collapse (c : Card) :
    sqlPowGtTou c = (sqlPowGtTou3 c == some true) := by
  rcases hp : c.power with _ | p <;> rcases ht : c.toughness with _ | t
  · simp [sqlPowGtTou, sqlPowGtTou3, hp, ht, sqlAnd3]
  · rcases hnt : jsNumericLike t <;>
      simp [sqlPowGtTou, sqlPowGtTou3, hp, ht, hnt, sqlAnd3]
  · rcases hnp : jsNumericLike p <;>
      simp [sqlPowGtTou, sqlPowGtTou3, hp, ht, hnp, sqlAnd3]
  · rcases hnp : jsNumericLike p <;> rcases hnt : jsNumericLike t <;>
      rcases hgp : pgNumeric p with _ | x <;> rcases hgt : pgNumeric t with _ | y <;>
      simp [sqlPowGtTou, sqlPowGtTou3, hp, ht, hnp, hnt, hgp, hgt,
        sqlAnd3_some_some, optSomeTrue]

theorem colorCondition_collapse (attr : Card → Option (List String))
    (op : String) (target : List String) (c : Card) :
    colorCondition attr op target c =
      (colorCondition3 attr op target c == some true) := by
  rw [colorCondition.eq_def, colorCondition3.eq_def]
  split
  · rcases h : attr c with _ | l <;> simp [sqlJsonbArrEq, h, optSomeTrue]
  · simp [optSomeTrue]
  · simp [optSomeTrue]
  · rcases h : attr c with _ | l <;> simp [sqlJsonbNe, h, optSomeTrue]
  · rcases h : attr c with _ | l <;> simp [sqlJsonbNe, h, optSomeTrue]
  · rcases h : attr c with _ | l <;> simp [sqlJsonbOverlap, h, optSomeTrue]

theorem sqlOptLikeContains_collapse (col : Option String) (v : String) :
    sqlOptLikeContains col v = (sqlOptLikeContains3 col v == some true) := by
  rcases col with _ | s
  · rfl
  · simp only [sqlOptLikeContains, sqlOptLikeContains3, Option.map_some']
    rw [optSomeTrue]

theorem sqlCmcEven_collapse (c : Card) :
    sqlCmcEven c = (sqlCmcEven3 c == some true) := by
  rcases h : c.cmc with _ | m <;> simp [sqlCmcEven, sqlCmcEven3, h, optSomeTrue]

theorem sqlCmcOdd_collapse (c : Card) :
    sqlCmcOdd c = (sqlCmcOdd3 c == some true) := by
  rcases h : c.cmc with _ | m <;> simp [sqlCmcOdd, sqlCmcOdd3, h, optSomeTrue]

theorem sqlCmcCmp_collapse (op : String) (n : Int) (c : Card) :
    sqlCmcCmp op n c = (sqlCmcCmp3 op n c == some true) := by
  rcases h : c.cmc with _ | m
  · simp [sqlCmcCmp, sqlCmcCmp3, h]
  · simp only [sqlCmcCmp, sqlCmcCmp3, h, Option.map_some']
    rw [optSomeTrue]
    split <;> try split
    all_goals simp_all

theorem sqlNumCmp_collapse (attr : Card → Option String) (op : String)
    (q : Dec) (c : Card) :
    sqlNumCmp attr op q c = (sqlNumCmp3 attr op q c == some true) := by
  rcases h : attr c with _ | s
  · simp [sqlNumCmp, sqlNumCmp3, h]
  · simp only [sqlNumCmp, sqlNumCmp3, h, Option.map_some']
    rw [optSomeTrue]

theorem sqlLegality_collapse (fmt status : String) (c : Card) :
    sqlLegality fmt status c = (sqlLegality3 fmt status c == some true) := by
  rcases h : c.legalities with _ | m
  · simp [sqlLegality, sqlLegality3, h]
  · rcases hl : m.lookup fmt with _ | s
    · simp [sqlLegality, sqlLegality3, h, hl]
    · simp [sqlLegality, sqlLegality3, h, hl, optSomeTrue]

theorem plainTextToCondition_collapse (v : String) (c : Card) :
    plainTextToCondition v c = (plainTextToCondition3 v c == some true) := by
  rw [plainTextToCondition, plainTextToCondition3]
  rcases ho : c.oracleText with _ | s
  · rcases hn : sqlLikeContains c.name v <;>
      simp [sqlOr3, sqlOptLikeContains, sqlOptLikeContains3, hn, ho]
  · simp only [sqlOptLikeContains, sqlOptLikeContains3, ho, Option.map_some',
      sqlOr3_some_some]
    rw [optSomeTrue]

theorem fieldToCondition_collapse (d : Bool) (f op v : String) :
    fieldToCondition d f op v =
      (fieldToCondition3 d f op v).map (fun p3 c => p3 c == some true) := by
  rw [fieldToCondition, fieldToCondition3]
  rcases hl : fieldMap.lookup f with _ | nf
  · rfl
  · by_cases h1 : nf = "name"
    · simp [h1, optSomeTrue]
    by_cases h2 : nf = "type"
    · simp [h1, h2, optSomeTrue]
    by_cases h3 : nf = "oracle"
    · simp [h1, h2, h3, ← sqlOptLikeContains_collapse]
    by_cases h4 : nf = "cmc"
    · by_cases he : jsToLower v = "even"
      · simp [h1, h2, h3, h4, he, ← sqlCmcEven_collapse]
      by_cases ho : jsToLower v = "odd"
      · simp [h1, h2, h3, h4, he, ho, ← sqlCmcOdd_collapse]
      rcases hp : jsParseInt v with _ | n
      · simp [h1, h2, h3, h4, he, ho, hp]
      · simp [h1, h2, h3, h4, he, ho, hp, ← sqlCmcCmp_collapse]
    by_cases h5 : nf = "mana_cost"
    · simp [h1, h2, h3, h4, h5, ← sqlOptLikeContains_collapse]
    by_cases h6 : nf = "power"
    · rcases d
      · simp [h1, h2, h3, h4, h5, h6]
      by_cases ht2 : jsToLower v = "tou"
      · simp [h1, h2, h3, h4, h5, h6, ht2, ← sqlPowGtTou_collapse]
      by_cases ht3 : jsToLower v = "toughness"
      · simp [h1, h2, h3, h4, h5, h6, ht2, ht3, ← sqlPowGtTou_collapse]
      rcases hq : jsParseFloat v with _ | q
      · simp [h1, h2, h3, h4, h5, h6, ht2, ht3, hq]
      · simp [h1, h2, h3, h4, h5, h6, ht2, ht3, hq, ← sqlNumCmp_collapse]
    by_cases h6b : nf = "pow"
    · rcases d
      · simp [h1, h2, h3, h4, h5, h6, h6b]
      by_cases ht2 : jsToLower v = "tou"
      · simp [h1, h2, h3, h4, h5, h6, h6b, ht2, ← sqlPowGtTou_collapse]
      by_cases ht3 : jsToLower v = "toughness"
      · simp [h1, h2, h3, h4, h5, h6, h6b, ht2, ht3, ← sqlPowGtTou_collapse]
      rcases hq : jsParseFloat v with _ | q
      · simp [h1, h2, h3, h4, h5, h6, h6b, ht2, ht3, hq]
      · simp [h1, h2, h3, h4, h5, h6, h6b, ht2, ht3, hq, ← sqlNumCmp_collapse]
    by_cases h7 : nf = "toughness"
    · rcases d
      · simp [h1, h2, h3, h4, h5, h6, h6b, h7]
      rcases hq : jsParseFloat v with _ | q
      · simp [h1, h2, h3, h4, h5, h6, h6b, h7, hq]
      · simp [h1, h2, h3, h4, h5, h6, h6b, h7, hq, ← sqlNumCmp_collapse]
    by_cases h7b : nf = "tou"
    · rcases d
      · simp [h1, h2, h3, h4, h5, h6, h6b, h7, h7b]
      rcases hq : jsParseFloat v with _ | q
      · simp [h1, h2, h3, h4, h5, h6, h6b, h7, h7b, hq]
      · simp [h1, h2, h3, h4, h5, h6, h6b, h7, h7b, hq, ← sqlNumCmp_collapse]
    by_cases h8 : nf = "colors"
    · rcases hce : (parseColorSet v).isEmpty
      · simp [h1, h2, h3, h4, h5, h6, h6b, h7, h7b, h8, hce,
          ← colorCondition_collapse]
      · simp [h1, h2, h3, h4, h5, h6, h6b, h7, h7b, h8, hce]
    by_cases h9 : nf = "color_identity"
    · rcases hce : (parseColorSet v).isEmpty
      · simp [h1, h2, h3, h4, h5, h6, h6b, h7, h7b, h8, h9, hce,
          ← colorCondition_collapse]
      · simp [h1, h2, h3, h4, h5, h6, h6b, h7, h7b, h8, h9, hce]
    by_cases h10 : nf = "keyword"
    · simp [h1, h2, h3, h4, h5, h6, h6b, h7, h7b, h8, h9, h10, optSomeTrue]
    by_cases h11 : nf = "format"
    · rcases hvf : validFormats.contains (jsToLower v)
      · simp [h1, h2, h3, h4, h5, h6, h6b, h7, h7b, h8, h9, h10, h11, hvf]
      · simp [h1, h2, h3, h4, h5, h6, h6b, h7, h7b, h8, h9, h10, h11, hvf,
          ← sqlLegality_collapse]
    by_cases h12 : nf = "banned"
    · rcases hvf : validFormats.contains (jsToLower v)
      · simp [h1, h2, h3, h4, h5, h6, h6b, h7, h7b, h8, h9, h10, h11, h12, hvf]
      · simp [h1, h2, h3, h4, h5, h6, h6b, h7, h7b, h8, h9, h10, h11, h12, hvf,
          ← sqlLegality_collapse]
    by_cases h13 : nf = "restricted"
    · rcases hvf : validFormats.contains (jsToLower v)
      · simp [h1, h2, h3, h4, h5, h6, h6b, h7, h7b, h8, h9, h10, h11, h12, h13,
          hvf]
      · simp [h1, h2, h3, h4, h5, h6, h6b, h7, h7b, h8, h9, h10, h11, h12, h13,
          hvf, ← sqlLegality_collapse]
    simp [h1, h2, h3, h4, h5, h6, h6b, h7, h7b, h8, h9, h10, h11, h12, h13]

/-! ## Claims -/

/-- C4 (counterexample to the claim as stated): `Not(x)` does not
compile to the logical negation of `x`'s row predicate.  The source
emits SQL `NOT`, and on a row where `x`'s condition is UNKNOWN (here a
NULL oracle text makes the plain-text condition UNKNOWN) the negation
is UNKNOWN too: the row is excluded by both `x` and `Not(x)`, so the
queries `x` and `-x` both return nothing on that corpus, instead of
complementing each other. -/
theorem C4_sql_not_counterexample :
    astToCondition true (.plainText "x") = some (plainTextToCondition3 "x") ∧
    astToCondition true (.not (.plainText "x")) =
      some (fun c => sqlNot3 (plainTextToCondition3 "x" c)) ∧
    plainTextToCondition3 "x" cardU = none ∧
    sqlNot3 (plainTextToCondition3 "x" cardU) = none ∧
    searchF "x" 10 [cardU] = .ok [] ∧
    searchF "-x" 10 [cardU] = .ok [] := by
  have hqx : parseQueryF "x" = .ok (.plainText "x") := by
    have ht : tokenize (jsTrim "x") = [⟨.PLAIN_TEXT, "x", 0, 1⟩] := by decide
    simp [parseQueryF, ht, parseTokens, parseOrF, parseAndF, parseNotF,
      parseTermF, andLoopF, orLoopF]
    decide
  have hqn : parseQueryF "-x" = .ok (.not (.plainText "x")) := by
    have ht : tokenize (jsTrim "-x") =
        [⟨.NOT, "-", 0, 1⟩, ⟨.PLAIN_TEXT, "x", 1, 2⟩] := by decide
    simp [parseQueryF, ht, parseTokens, parseOrF, parseAndF, parseNotF,
      parseTermF, andLoopF, orLoopF]
    decide
  refine ⟨rfl, rfl, rfl, rfl, ?_, ?_⟩
  · rw [searchF, hqx]; rfl
  · rw [searchF, hqn]; rfl

/-- C4 (amended): the no-opinion algebra of AND/OR is as claimed (a
`none` side is dropped, two resolved sides combine), but the
connectives are SQL three-valued AND/OR, and `Not(x)` compiles to SQL
`NOT` of `x`'s condition: no-opinion when `x` is, otherwise a condition
that is TRUE exactly where `x`'s is FALSE — rows where `x`'s condition
is UNKNOWN (a NULL column) are excluded by both `x` and `Not(x)`,
rather than matched by the negation. -/
theorem C4_noOpinion_algebra_amended :
    (∀ d l r, astToCondition d l = none →
      astToCondition d (.and l r) = astToCondition d r) ∧
    (∀ d l r, astToCondition d r = none →
      astToCondition d (.and l r) = astToCondition d l) ∧
    (∀ d l r lp rp, astToCondition d l = some lp →
      astToCondition d r = some rp →
      astToCondition d (.and l r) = some (fun c => sqlAnd3 (lp c) (rp c))) ∧
    (∀ d l r, astToCondition d l = none →
      astToCondition d (.or l r) = astToCondition d r) ∧
    (∀ d l r, astToCondition d r = none →
      astToCondition d (.or l r) = astToCondition d l) ∧
    (∀ d l r lp rp, astToCondition d l = some lp →
      astToCondition d r = some rp →
      astToCondition d (.or l r) = some (fun c => sqlOr3 (lp c) (rp c))) ∧
    (∀ d x, astToCondition d x = none →
      astToCondition d (.not x) = none) ∧
    (∀ d x p, astToCondition d x = some p →
      astToCondition d (.not x) = some (fun c => sqlNot3 (p c))) ∧
    (∀ v, (sqlNot3 v = some true ↔ v = some false)) ∧
    sqlNot3 none = none := by
  refine ⟨?_, ?_, ?_, ?_, ?_, ?_, ?_, ?_, ?_, rfl⟩
  · intro d l r h; simp [astToCondition, h]
  · intro d l r h
    cases h' : astToCondition d l <;> simp [astToCondition, h, h']
  · intro d l r lp rp hl hr; simp [astToCondition, hl, hr]
  · intro d l r h; simp [astToCondition, h]
  · intro d l r h
    cases h' : astToCondition d l <;> simp [astToCondition, h, h']
  · intro d l r lp rp hl hr; simp [astToCondition, hl, hr]
  · intro d x h; simp [astToCondition, h]
  · intro d x p h; simp [astToCondition, h]
  · intro v
    rcases v with _ | b
    · simp [sqlNot3]
    · rcases b <;> simp [sqlNot3]

/-- Witness for the amended C4 at concrete nodes: `zzz:x` is an unknown
field (no-opinion), plain words compile to conditions combined with the
three-valued connectives, and SQL `NOT` flips only known values. -/
theorem C4_noOpinion_algebra_amended_witness :
    astToCondition true (.and (.field "zzz" "" "x") (.plainText "a")) =
      astToCondition true (.plainText "a") ∧
    astToCondition true (.and (.plainText "a") (.field "zzz" "" "x")) =
      astToCondition true (.plainText "a") ∧
    astToCondition true (.and (.plainText "a") (.plainText "b")) =
      some (fun c =>
        sqlAnd3 (plainTextToCondition3 "a" c) (plainTextToCondition3 "b" c)) ∧
    astToCondition true (.or (.field "zzz" "" "x") (.plainText "a")) =
      astToCondition true (.plainText "a") ∧
    astToCondition true (.not (.field "zzz" "" "x")) = none ∧
    astToCondition true (.not (.plainText "a")) =
      some (fun c => sqlNot3 (plainTextToCondition3 "a" c)) ∧
    (sqlNot3 (some true) = some true ↔ some true = some false) := by
  refine ⟨?_, ?_, ?_, ?_, ?_, ?_, ?_⟩
  · exact C4_noOpinion_algebra_amended.1 true _ _ rfl
  · exact C4_noOpinion_algebra_amended.2.1 true _ _ rfl
  · exact C4_noOpinion_algebra_amended.2.2.1 true _ _ _ _ rfl rfl
  · exact C4_noOpinion_algebra_amended.2.2.2.1 true _ _ rfl
  · exact C4_noOpinion_algebra_amended.2.2.2.2.2.2.1 true _ rfl
  · exact C4_noOpinion_algebra_amended.2.2.2.2.2.2.2.1 true _ _ rfl
  · exact C4_noOpinion_algebra_amended.2.2.2.2.2.2.2.2.1 (some true)

/-- C5: mana-value terms: literal `even`/`odd` (case-insensitive) test
parity regardless of the operator; otherwise an unparseable value
resolves to no-opinion; otherwise the operator (defaulting to `=` when
empty) is applied to the record's mana value against the parsed
integer.  A record without a mana value satisfies none of these
predicates. -/
theorem C5_manaValue_semantics :
    (∀ d op v, jsToLower v = "even" →
      fieldToCondition d "cmc" op v = some sqlCmcEven) ∧
    (∀ d op v, jsToLower v = "odd" →
      fieldToCondition d "cmc" op v = some sqlCmcOdd) ∧
    (∀ d op v, jsToLower v ≠ "even" → jsToLower v ≠ "odd" →
      jsParseInt v = none → fieldToCondition d "cmc" op v = none) ∧
    (∀ d op v n, jsToLower v ≠ "even" → jsToLower v ≠ "odd" →
      jsParseInt v = some n →
      fieldToCondition d "cmc" op v = some (sqlCmcCmp op n)) ∧
    (∀ n, sqlCmcCmp "" n = sqlCmcCmp "=" n) ∧
    (∀ card m, card.cmc = some m →
      sqlCmcEven card = (m % 2 == 0) ∧ sqlCmcOdd card = (m % 2 == 1) ∧
      (∀ n : Int, sqlCmcCmp "=" n card = (m == n) ∧
        sqlCmcCmp "<=" n card = decide (m ≤ n) ∧
        sqlCmcCmp ">=" n card = decide (m ≥ n) ∧
        sqlCmcCmp "<" n card = decide (m < n) ∧
        sqlCmcCmp ">" n card = decide (m > n) ∧
        sqlCmcCmp "!=" n card = !(m == n))) ∧
    (∀ card, card.cmc = none → sqlCmcEven card = false ∧
      sqlCmcOdd card = false ∧ ∀ op n, sqlCmcCmp op n card = false) := by
  have hl : fieldMap.lookup "cmc" = some "cmc" := rfl
  refine ⟨?_, ?_, ?_, ?_, ?_, ?_, ?_⟩
  · intro d op v h; simp [fieldToCondition, hl, h]
  · intro d op v h; simp [fieldToCondition, hl, h]
  · intro d op v h1 h2 h3; simp [fieldToCondition, hl, h1, h2, h3]
  · intro d op v n h1 h2 h3; simp [fieldToCondition, hl, h1, h2, h3]
  · intro n
    funext c
    rcases h : c.cmc with _ | m <;> simp [sqlCmcCmp, h]
  · intro card m h
    refine ⟨by simp [sqlCmcEven, h], by simp [sqlCmcOdd, h], ?_⟩
    intro n
    refine ⟨?_, ?_, ?_, ?_, ?_, ?_⟩ <;> simp [sqlCmcCmp, h]
  · intro card h
    exact ⟨by simp [sqlCmcEven, h], by simp [sqlCmcOdd, h],
      fun op n => by simp [sqlCmcCmp, h]⟩

/-- Witness for C5 at concrete inputs: `cmc>=even` tests parity in
spite of the operator, `cmc:foo` is no-opinion, `cmc<=3` compares, and
the parity/comparison predicates evaluate as stated on a record of mana
value 2 and on one with no mana value. -/
theorem C5_manaValue_semantics_witness :
    fieldToCondition true "cmc" ">=" "even" = some sqlCmcEven ∧
    fieldToCondition true "cmc" "" "odd" = some sqlCmcOdd ∧
    fieldToCondition true "cmc" "" "foo" = none ∧
    fieldToCondition true "cmc" "<=" "3" = some (sqlCmcCmp "<=" 3) := by
  refine ⟨?_, ?_, ?_, ?_⟩
  · exact C5_manaValue_semantics.1 true ">=" "even" rfl
  · exact C5_manaValue_semantics.2.1 true "" "odd" rfl
  · exact C5_manaValue_semantics.2.2.1 true "" "foo" (by decide) (by decide) rfl
  · exact C5_manaValue_semantics.2.2.2.1 true "<=" "3" 3 (by decide) (by decide) rfl

/-- C8: format-legal / format-banned / format-restricted terms resolve
to no-opinion unless the (lowercased) value is in the fixed format
allow-list; otherwise the predicate holds exactly when the record's
legality mapping yields `legal` / `banned` / `restricted` for that
format. -/
theorem C8_format_allowlist :
    (∀ d f op v nf, fieldMap.lookup f = some nf →
      (nf = "format" ∨ nf = "banned" ∨ nf = "restricted") →
      jsToLower v ∉ validFormats →
      fieldToCondition d f op v = none) ∧
    (∀ d f op v, fieldMap.lookup f = some "format" →
      jsToLower v ∈ validFormats →
      fieldToCondition d f op v = some (sqlLegality (jsToLower v) "legal")) ∧
    (∀ d f op v, fieldMap.lookup f = some "banned" →
      jsToLower v ∈ validFormats →
      fieldToCondition d f op v = some (sqlLegality (jsToLower v) "banned")) ∧
    (∀ d f op v, fieldMap.lookup f = some "restricted" →
      jsToLower v ∈ validFormats →
      fieldToCondition d f op v = some (sqlLegality (jsToLower v) "restricted")) ∧
    (∀ fmt status card m, card.legalities = some m →
      sqlLegality fmt status card = (m.lookup fmt == some status)) ∧
    (∀ fmt status card, card.legalities = none →
      sqlLegality fmt status card = false) := by
  refine ⟨?_, ?_, ?_, ?_, ?_, ?_⟩
  · intro d f op v nf hf hnf hv
    rcases hnf with h | h | h <;> subst h <;> simp [fieldToCondition, hf, hv]
  · intro d f op v hf hv; simp [fieldToCondition, hf, hv]
  · intro d f op v hf hv; simp [fieldToCondition, hf, hv]
  · intro d f op v hf hv; simp [fieldToCondition, hf, hv]
  · intro fmt status card m h; simp [sqlLegality, h]
  · intro fmt status card h; simp [sqlLegality, h]

/-- Witness for C8: `f:klingon` is no-opinion, while `f:modern`,
`banned:modern` and `restricted:vintage` test the legality mapping on a
concrete record. -/
theorem C8_format_allowlist_witness :
    fieldToCondition true "f" "" "klingon" = none ∧
    fieldToCondition true "f" "" "Modern" = some (sqlLegality "modern" "legal") ∧
    fieldToCondition true "banned" "" "modern" = some (sqlLegality "modern" "banned") ∧
    fieldToCondition true "restricted" "" "vintage" =
      some (sqlLegality "vintage" "restricted") := by
  refine ⟨?_, ?_, ?_, ?_⟩
  · exact C8_format_allowlist.1 true "f" "" "klingon" "format" rfl (Or.inl rfl) (by decide)
  · exact C8_format_allowlist.2.1 true "f" "" "Modern" rfl (by decide)
  · exact C8_format_allowlist.2.2.1 true "banned" "" "modern" rfl (by decide)
  · exact C8_format_allowlist.2.2.2.1 true "restricted" "" "vintage" rfl (by decide)

/-- C1: the claim (and the README's "`c:colorless` or `c:c` for
colorless, `c:multicolor` or `c:m` for multicolor") require the
colorless pseudo-color to match exactly the records with an empty color
set and the multicolor pseudo-color to match exactly those with more
than one color, as dedicated predicates.  The code instead maps the
value to the literal letter list `["C"]` / `["M"]` and compiles the
ordinary set operators over it, so (under the default any-overlap
operator) the compiled predicate is false on every record whose color
set contains only genuine color letters — in particular on every
colorless and on every multicolor card.  This theorem evaluates the
code at the failing inputs. -/
theorem C1_pseudo_colors_tested_literally :
    parseColorSet "c" = ["C"] ∧ parseColorSet "colorless" = ["C"] ∧
    parseColorSet "m" = ["M"] ∧ parseColorSet "multicolor" = ["M"] ∧
    fieldToCondition true "c" "" "c" =
      some (colorCondition (fun c => c.colors) "" ["C"]) ∧
    fieldToCondition true "ci" "" "m" =
      some (colorCondition (fun c => c.colorIdentity) "" ["M"]) ∧
    (∀ card, card.colors = some [] →
      colorCondition (fun c => c.colors) "" ["C"] card = false) ∧
    (∀ card l, card.colors = some l →
      (∀ x ∈ l, x ∈ ["W", "U", "B", "R", "G"]) →
      colorCondition (fun c => c.colors) "" ["C"] card = false ∧
      colorCondition (fun c => c.colors) "" ["M"] card = false) ∧
    (∀ card l, card.colorIdentity = some l →
      (∀ x ∈ l, x ∈ ["W", "U", "B", "R", "G"]) →
      colorCondition (fun c => c.colorIdentity) "" ["C"] card = false ∧
      colorCondition (fun c => c.colorIdentity) "" ["M"] card = false) := by
  refine ⟨rfl, rfl, rfl, rfl, rfl, rfl, ?_, ?_, ?_⟩
  · intro card h; simp [colorCondition, sqlJsonbOverlap, h]
  · intro card l h hall
    constructor <;>
    · simp [colorCondition, sqlJsonbOverlap, h]
      intro x hx
      have h5 := hall x hx
      simp only [List.mem_cons, List.not_mem_nil, or_false] at h5
      rcases h5 with h5 | h5 | h5 | h5 | h5 <;> subst h5 <;> decide
  · intro card l h hall
    constructor <;>
    · simp [colorCondition, sqlJsonbOverlap, h]
      intro x hx
      have h5 := hall x hx
      simp only [List.mem_cons, List.not_mem_nil, or_false] at h5
      rcases h5 with h5 | h5 | h5 | h5 | h5 <;> subst h5 <;> decide

/-- Witness for C1 at concrete records: a colorless artifact
(`colors = []`) is not matched by the compiled `c:c`, and a two-color
card is not matched by the compiled `ci:m`. -/
theorem C1_pseudo_colors_tested_literally_witness :
    colorCondition (fun c => c.colors) "" ["C"]
      { oracleId := "o1", name := "Ornithopter", manaCost := some "0",
        cmc := some 0, typeLine := "Artifact Creature", oracleText := some "Flying",
        colors := some [], colorIdentity := some [], keywords := some ["Flying"],
        legalities := some [("modern", "legal")], power := some "0",
        toughness := some "2" } = false ∧
    colorCondition (fun c => c.colorIdentity) "" ["M"]
      { oracleId := "o2", name := "Baleful Strix", manaCost := some "UB",
        cmc := some 2, typeLine := "Artifact Creature", oracleText := some "Flying",
        colors := some ["U", "B"], colorIdentity := some ["U", "B"],
        keywords := some ["Flying"], legalities := some [("legacy", "legal")],
        power := some "1", toughness := some "1" } = false := by
  constructor
  · exact C1_pseudo_colors_tested_literally.2.2.2.2.2.2.1 _ rfl
  · exact (C1_pseudo_colors_tested_literally.2.2.2.2.2.2.2.2 _ ["U", "B"] rfl
      (by decide)).2

/-- C6, counterexample to the second half of the claim as stated: an
empty target color set only arises from an empty field value, and
there the compiler returns no-opinion (`none`) before reaching the
operator switch — no predicate is compiled at all, so it is false that
"under the `>=` operator with an empty target set every record
satisfies the predicate". -/
theorem C6_empty_superset_counterexample :
    parseColorSet "" = [] ∧
    fieldToCondition true "c" ">=" "" = none ∧
    ¬ ∃ p : Card → Bool, fieldToCondition true "c" ">=" "" = some p := by
  refine ⟨rfl, rfl, ?_⟩
  rintro ⟨p, hp⟩
  rw [show fieldToCondition true "c" ">=" "" = none from rfl] at hp
  exact Option.noConfusion hp

/-- C6 as amended: for the colors and color-identity fields, under `<=`
every record whose color set is empty (an empty JSONB array or NULL)
satisfies the compiled predicate for every compilable target; under
`>=` an empty target set (which only an empty value produces) makes the
term resolve to no-opinion instead of matching every record. -/
theorem C6_color_subset_superset_amended :
    (∀ d v card, parseColorSet v ≠ [] →
      (card.colors = some [] ∨ card.colors = none) →
      condMatches (fieldToCondition d "c" "<=" v) card = some true) ∧
    (∀ d v card, parseColorSet v ≠ [] →
      (card.colorIdentity = some [] ∨ card.colorIdentity = none) →
      condMatches (fieldToCondition d "ci" "<=" v) card = some true) ∧
    (∀ d v, parseColorSet v = [] → fieldToCondition d "c" ">=" v = none) ∧
    (∀ d v, parseColorSet v = [] → fieldToCondition d "ci" ">=" v = none) := by
  have hc1 : List.lookup "c" fieldMap = some "colors" := rfl
  have hc2 : List.lookup "ci" fieldMap = some "color_identity" := rfl
  refine ⟨?_, ?_, ?_, ?_⟩
  · intro d v card hv hc
    rcases hc with hc | hc <;>
      simp [fieldToCondition, hc1, hv, condMatches, colorCondition, sqlJsonbSubset, hc]
  · intro d v card hv hc
    rcases hc with hc | hc <;>
      simp [fieldToCondition, hc2, hv, condMatches, colorCondition, sqlJsonbSubset, hc]
  · intro d v hv; simp [fieldToCondition, hc1, hv]
  · intro d v hv; simp [fieldToCondition, hc2, hv]

/-- Witness for the amended C6: the colorless record satisfies the
compiled `c<=wbg` and `ci<=esper`, and `c>=` with an empty value is
no-opinion. -/
theorem C6_color_subset_superset_amended_witness :
    parseColorSet "wbg" ≠ [] ∧
    condMatches (fieldToCondition true "c" "<=" "wbg")
      { oracleId := "o1", name := "Ornithopter", manaCost := some "0",
        cmc := some 0, typeLine := "Artifact Creature", oracleText := none,
        colors := some [], colorIdentity := some [], keywords := none,
        legalities := none, power := some "0", toughness := some "2" } =
      some true ∧
    condMatches (fieldToCondition true "ci" "<=" "esper")
      { oracleId := "o1", name := "Ornithopter", manaCost := some "0",
        cmc := some 0, typeLine := "Artifact Creature", oracleText := none,
        colors := some [], colorIdentity := some [], keywords := none,
        legalities := none, power := some "0", toughness := some "2" } =
      some true ∧
    fieldToCondition true "c" ">=" "" = none := by
  refine ⟨by decide, ?_, ?_, ?_⟩
  · exact C6_color_subset_superset_amended.1 true "wbg" _ (by decide) (.inl rfl)
  · exact C6_color_subset_superset_amended.2.1 true "esper" _ (by decide) (.inl rfl)
  · exact C6_color_subset_superset_amended.2.2.1 true "" rfl

/-! ### Order facts for the JS sort, and auxiliary lemmas for C10 -/

theorem listLexLe_total (xs ys : List Char) :
    listLexLe xs ys = true ∨ listLexLe ys xs = true := by
  induction xs generalizing ys with
  | nil => left; rfl
  | cons x xs ih =>
    cases ys with
    | nil => right; rfl
    | cons y ys =>
      by_cases h1 : x.toNat < y.toNat
      · left; simp [listLexLe, h1]
      · by_cases h2 : x.toNat = y.toNat
        · have h1r : ¬ y.toNat < x.toNat := by omega
          rcases ih ys with h | h
          · left; simp [listLexLe, h1, h2, h]
          · right; simp [listLexLe, h1r, h2.symm, h]
        · have h3 : y.toNat < x.toNat := by omega
          right; simp [listLexLe, h3]

theorem listLexLe_trans (xs ys zs : List Char)
    (h1 : listLexLe xs ys = true) (h2 : listLexLe ys zs = true) :
    listLexLe xs zs = true := by
  induction xs generalizing ys zs with
  | nil => rfl
  | cons x xs ih =>
    cases ys with
    | nil => simp [listLexLe] at h1
    | cons y ys =>
      cases zs with
      | nil => simp [listLexLe] at h2
      | cons z zs =>
        simp only [listLexLe] at h1 h2 ⊢
        split_ifs at h1 h2 ⊢ <;> first
          | rfl
          | omega
          | (exact ih ys zs h1 h2)

instance : IsTotal String (fun a b => jsStrLe a b = true) :=
  ⟨fun a b => listLexLe_total a.data b.data⟩

instance : IsTrans String (fun a b => jsStrLe a b = true) :=
  ⟨fun _ _ _ h1 h2 => listLexLe_trans _ _ _ h1 h2⟩

/-- A successful association-list lookup returns a stored pair. -/
theorem lookup_mem_pair {β : Type} :
    ∀ (l : List (String × β)) (k : String) (v : β),
      l.lookup k = some v → (k, v) ∈ l := by
  intro l
  induction l with
  | nil => intro k v h; simp [List.lookup] at h
  | cons p t ih =>
    intro k v h
    obtain ⟨k1, v1⟩ := p
    by_cases hk : k = k1
    · subst hk
      simp [List.lookup] at h
      simp [h]
    · have hk' : (k == k1) = false := by simp [hk]
      simp [List.lookup, hk'] at h
      exact List.mem_cons_of_mem _ (ih k v h)

/-- Sorting preserves `Nodup`. -/
theorem jsSortStrings_nodup (l : List String) (h : l.Nodup) :
    (jsSortStrings l).Nodup :=
  ((List.perm_insertionSort (fun a b => jsStrLe a b = true) l).symm).nodup h

/-- Sorting sorts. -/
theorem jsSortStrings_sorted (l : List String) :
    List.Sorted (fun a b => jsStrLe a b = true) (jsSortStrings l) :=
  List.sorted_insertionSort _ l

/-- The letter-accumulation loop of `parseColorSet` preserves `Nodup`
(it only pushes codes that are not yet present). -/
theorem collectColors_nodup : ∀ (cs : List Char) (acc : List String),
    acc.Nodup → (collectColors cs acc).Nodup := by
  intro cs
  induction cs with
  | nil => intro acc h; exact h
  | cons c cs ih =>
    intro acc h
    rw [collectColors]
    by_cases hc : (normalizeColor (String.mk [c]) ≠ "" &&
        !(acc.contains (normalizeColor (String.mk [c])))) = true
    · rw [if_pos hc]
      refine ih _ ?_
      have hmem : normalizeColor (String.mk [c]) ∉ acc := by
        simp only [Bool.and_eq_true, ne_eq, Bool.not_eq_true] at hc
        simpa using hc.2
      simp [List.nodup_append, h, hmem, List.disjoint_singleton]
    · rw [if_neg hc]; exact ih _ h

/-- C10: for every input string the parsed color set is sorted in
ascending order and duplicate-free; a named combination yields the
sorted copy of its table entry; otherwise (and when the value is not
one of the colorless/multicolor specials) the string is consumed
letter by letter, each character normalized through the color table or
uppercased and passed through. -/
theorem C10_parseColorSet_sorted_nodup :
    (∀ s, List.Sorted (fun a b => jsStrLe a b = true) (parseColorSet s) ∧
      (parseColorSet s).Nodup) ∧
    (∀ s entry, colorCombinationMap.lookup (jsToLower s) = some entry →
      parseColorSet s = jsSortStrings entry) ∧
    (∀ s, colorCombinationMap.lookup (jsToLower s) = none →
      jsToLower s ≠ "colorless" → jsToLower s ≠ "c" →
      jsToLower s ≠ "multicolor" → jsToLower s ≠ "m" →
      parseColorSet s = jsSortStrings (collectColors (jsToLower s).data [])) ∧
    (∀ c : Char, normalizeColor (String.mk [c]) =
      match colorMap.lookup (jsToLower (String.mk [c])) with
      | some x => x
      | none => jsToUpper (String.mk [c])) := by
  have hcomb : ∀ p ∈ colorCombinationMap, (p.2 : List String).Nodup := by decide
  refine ⟨?_, ?_, ?_, ?_⟩
  · intro s
    rcases h : colorCombinationMap.lookup (jsToLower s) with _ | entry
    · by_cases h1 : jsToLower s = "colorless" ∨ jsToLower s = "c"
      · have : parseColorSet s = ["C"] := by
          rcases h1 with h1 | h1 <;> simp [parseColorSet, h, h1] <;> rfl
        rw [this]; exact ⟨List.sorted_singleton _, by simp⟩
      · by_cases h2 : jsToLower s = "multicolor" ∨ jsToLower s = "m"
        · have : parseColorSet s = ["M"] := by
            push_neg at h1
            rcases h2 with h2 | h2 <;> simp [parseColorSet, h, h1.1, h1.2, h2] <;> rfl
          rw [this]; exact ⟨List.sorted_singleton _, by simp⟩
        · push_neg at h1 h2
          have : parseColorSet s =
              jsSortStrings (collectColors (jsToLower s).data []) := by
            simp [parseColorSet, h, h1.1, h1.2, h2.1, h2.2]
          rw [this]
          exact ⟨jsSortStrings_sorted _,
            jsSortStrings_nodup _ (collectColors_nodup _ [] List.nodup_nil)⟩
    · have : parseColorSet s = jsSortStrings entry := by
        simp [parseColorSet, h]
      rw [this]
      exact ⟨jsSortStrings_sorted _,
        jsSortStrings_nodup _ (hcomb _ (lookup_mem_pair _ _ _ h))⟩
  · intro s entry h; simp [parseColorSet, h]
  · intro s h h1 h2 h3 h4; simp [parseColorSet, h, h1, h2, h3, h4]
  · intro c; rfl

/-- Witness for C10 at concrete inputs: the combination `esper` returns
the sorted copy of its entry, and `wug` is parsed letter by letter. -/
theorem C10_parseColorSet_sorted_nodup_witness :
    parseColorSet "esper" = jsSortStrings ["W", "U", "B"] ∧
    parseColorSet "wug" = jsSortStrings (collectColors "wug".data []) ∧
    parseColorSet "esper" = ["B", "U", "W"] ∧
    parseColorSet "wug" = ["G", "U", "W"] := by
  refine ⟨?_, ?_, by decide, by decide⟩
  · exact C10_parseColorSet_sorted_nodup.2.1 "esper" ["W", "U", "B"] rfl
  · exact C10_parseColorSet_sorted_nodup.2.2.1 "wug" rfl (by decide) (by decide)
      (by decide) (by decide)

/-- C3: a query consisting solely of a single field term with an
unrecognized field name returns the empty result sequence for every
corpus and limit (the top-level no-opinion override), rather than
matching everything. -/
theorem C3_unknown_field_top_level_empty :
    ∀ q f op v limit corpus, parseQueryF q = .ok (.field f op v) →
      fieldMap.lookup f = none →
      searchF q limit corpus = .ok [] := by
  intro q f op v limit corpus hq hf
  simp [searchF, hq, astToCondition, fieldToCondition3, hf]

/-- Witness for C3: the query `zzz:foo` parses to a single unknown
field term and returns no rows on a nonempty corpus. -/
theorem C3_unknown_field_top_level_empty_witness :
    searchF "zzz:foo" 20
      [{ oracleId := "o1", name := "Ornithopter", manaCost := some "0",
         cmc := some 0, typeLine := "Artifact Creature", oracleText := none,
         colors := some [], colorIdentity := some [], keywords := none,
         legalities := none, power := some "0", toughness := some "2" }] =
      .ok [] := by
  have hq : parseQueryF "zzz:foo" = .ok (.field "zzz" "" "foo") := by
    have ht : tokenize (jsTrim "zzz:foo") = [⟨.FIELD, "zzz:foo", 0, 7⟩] := by decide
    have hsp : splitFieldToken "zzz:foo" = some ("zzz", "", "foo") := by decide
    simp [parseQueryF, ht, hsp, parseTokens, parseOrF, parseAndF, parseNotF,
      parseTermF, andLoopF, orLoopF]
    decide
  exact C3_unknown_field_top_level_empty "zzz:foo" "zzz" "" "foo" 20 _ hq rfl

/-- C7: the search entry point fails exactly when `parseQuery` fails,
propagating its message: the empty/whitespace-only check fails with the
bare message, any tokenizer/parser failure is wrapped with the
`Query parsing error: ` prefix around the underlying message, and once
parsing succeeds the search always succeeds — compiling unknown field
names or unparseable field values cannot fail (they degrade to
no-opinion inside `astToCondition`/`fieldToCondition`, which are total). -/
theorem C7_fails_iff_parse_fails :
    (∀ q limit corpus e,
      searchF q limit corpus = .error e ↔ parseQueryF q = .error e) ∧
    (∀ q ast limit corpus, parseQueryF q = .ok ast →
      ∃ res, searchF q limit corpus = .ok res) ∧
    (∀ q m, (jsTrim q).length ≠ 0 → (tokenize (jsTrim q)).length ≠ 0 →
      parseTokens (tokenize (jsTrim q)) = .error m →
      parseQueryF q = .error ("Query parsing error: " ++ m)) ∧
    (∀ q, (jsTrim q).length = 0 →
      parseQueryF q = .error "Query cannot be empty") := by
  refine ⟨?_, ?_, ?_, ?_⟩
  · intro q limit corpus e
    constructor
    · intro h
      rcases hq : parseQueryF q with m | ast
      · simp only [searchF, hq] at h
        rw [show m = e by simpa using h]
      · exfalso
        simp only [searchF, hq] at h
        rcases hc : astToCondition true ast <;> simp [hc] at h
    · intro h; rw [searchF, h]
  · intro q ast limit corpus h
    rw [searchF, h]
    rcases hc : astToCondition true ast <;> simp [hc]
  · intro q m h1 h2 h3
    rw [parseQueryF]
    rw [if_neg h1]
    simp only [h3]
    rw [if_neg h2]
  · intro q h; rw [parseQueryF, if_pos h]

/-- Witness for C7: the unmatched parenthesis query `(` fails with the
wrapped parser message, a plain-word query succeeds, and a
whitespace-only query fails with the empty-query message. -/
theorem C7_fails_iff_parse_fails_witness :
    searchF "(" 5 [] = .error "Query parsing error: Unexpected end of query" ∧
    (∃ res, searchF "a" 5 [] = .ok res) ∧
    parseQueryF "(" = .error "Query parsing error: Unexpected end of query" ∧
    parseQueryF " " = .error "Query cannot be empty" := by
  have htok : tokenize (jsTrim "(") = [⟨.LPAREN, "(", 0, 1⟩] := by decide
  have hpt : parseTokens (tokenize (jsTrim "(")) =
      .error "Unexpected end of query" := by
    rw [htok]
    simp [parseTokens, parseOrF, parseAndF, parseNotF, parseTermF, andLoopF,
      orLoopF]
  have hp : parseQueryF "(" =
      .error "Query parsing error: Unexpected end of query" :=
    C7_fails_iff_parse_fails.2.2.1 "(" "Unexpected end of query" (by decide)
      (by rw [htok]; decide) hpt
  refine ⟨(C7_fails_iff_parse_fails.1 "(" 5 [] _).mpr hp, ?_, hp,
    C7_fails_iff_parse_fails.2.2.2 " " (by decide)⟩
  have hpa : parseQueryF "a" = .ok (.plainText "a") := by
    have ht2 : tokenize (jsTrim "a") = [⟨.PLAIN_TEXT, "a", 0, 1⟩] := by decide
    simp [parseQueryF, ht2, parseTokens, parseOrF, parseAndF, parseNotF,
      parseTermF, andLoopF, orLoopF]
    decide
  exact C7_fails_iff_parse_fails.2.1 "a" _ 5 [] hpa

/-! ### Auxiliary lemmas for the colon-less field-term rule (C9) -/

theorem takeWhile_append_all {α : Type} {p : α → Bool} {xs ys : List α}
    (h : ∀ x ∈ xs, p x = true) :
    (xs ++ ys).takeWhile p = xs ++ ys.takeWhile p := by
  induction xs with
  | nil => simp
  | cons a t ih =>
    have ha : p a = true := h a (by simp)
    simp only [List.cons_append, List.takeWhile_cons, ha, if_true]
    rw [ih (fun x hx => h x (by simp [hx]))]

theorem dropWhile_append_all {α : Type} {p : α → Bool} {xs ys : List α}
    (h : ∀ x ∈ xs, p x = true) :
    (xs ++ ys).dropWhile p = ys.dropWhile p := by
  induction xs with
  | nil => simp
  | cons a t ih =>
    have ha : p a = true := h a (by simp)
    simp only [List.cons_append, List.dropWhile_cons, ha, if_true]
    exact ih (fun x hx => h x (by simp [hx]))

theorem takeWhile_all_eq {α : Type} {p : α → Bool} {xs : List α}
    (h : ∀ x ∈ xs, p x = true) : xs.takeWhile p = xs := by
  have := @takeWhile_append_all _ _ _ [] h
  simpa using this

/-- A lowercase ASCII letter is fixed by `Char.toLower`. -/
theorem toLower_of_lower {c : Char} (h : isLowerAlpha c = true) :
    c.toLower = c := by
  simp only [isLowerAlpha, Bool.and_eq_true, decide_eq_true_eq] at h
  unfold Char.toLower
  rw [if_neg (by omega)]

theorem jsToLower_of_lower {l : List Char} (h : ∀ x ∈ l, isLowerAlpha x = true) :
    jsToLower (String.mk l) = String.mk l := by
  unfold jsToLower
  congr 1
  simp only [String.data]
  calc l.map Char.toLower = l.map id := by
        exact List.map_congr_left (fun a ha => toLower_of_lower (h a ha))
    _ = l := List.map_id l

theorem char_beq_false {c d : Char} (hc : 97 ≤ c.toNat ∧ c.toNat ≤ 122)
    (hd : d.toNat < 97 ∨ 122 < d.toNat) : (c == d) = false := by
  apply beq_false_of_ne
  intro heq
  subst heq
  omega

/-- The colon-less field-term rule of the tokenizer: at a scan position
holding a run of (lowercase) letters, then a run of comparison
characters, then a run of letter/digit/asterisk value characters, one
FIELD token is produced whose stored text is the name, the operator, a
colon, and the value. -/
theorem tokStep_noColon (prev : Option Char) (f ops v : List Char)
    (hf : f ≠ []) (hfl : ∀ x ∈ f, isLowerAlpha x = true)
    (hops : ops ≠ []) (hopsl : ∀ x ∈ ops, isOpChar x = true)
    (hv : v ≠ []) (hvl : ∀ x ∈ v, isNoColonValChar x = true) :
    tokStep prev (f ++ ops ++ v) =
      (some (.FIELD, String.mk (f ++ ops ++ ':' :: v)),
        f.length + ops.length + v.length) := by
  obtain ⟨c, f', rfl⟩ := List.exists_cons_of_ne_nil hf
  obtain ⟨o, ops', rfl⟩ := List.exists_cons_of_ne_nil hops
  obtain ⟨w, v', rfl⟩ := List.exists_cons_of_ne_nil hv
  have hcl : 97 ≤ c.toNat ∧ c.toNat ≤ 122 := by
    simpa [isLowerAlpha] using hfl c (by simp)
  have hws : isJsWs c = false := by simp [isJsWs]; omega
  have hq : (c == '"') = false := char_beq_false hcl (by decide)
  have hlp : (c == '(') = false := char_beq_false hcl (by decide)
  have hrp : (c == ')') = false := char_beq_false hcl (by decide)
  have hmn : (c == '-') = false := char_beq_false hcl (by decide)
  have hLetter : ∀ x ∈ c :: f', isAsciiLetter x = true := by
    intro x hx
    have := hfl x hx
    simp [isAsciiLetter, this]
  have hONotLetter : isAsciiLetter o = false := by
    have := hopsl o (by simp)
    simp only [isOpChar, Bool.or_eq_true, decide_eq_true_eq] at this
    simp [isAsciiLetter, isLowerAlpha, isUpperAlpha]
    omega
  have hOps : ∀ x ∈ o :: ops', isOpChar x = true := hopsl
  have hWNotOp : isOpChar w = false := by
    have := hvl w (by simp)
    simp only [isNoColonValChar, isAsciiLetter, isLowerAlpha, isUpperAlpha,
      isDigitC, Bool.or_eq_true, Bool.and_eq_true, decide_eq_true_eq] at this
    simp [isOpChar]
    omega
  have hWNotColon : (w == ':') = false := by
    apply beq_false_of_ne
    intro heq
    subst heq
    exact absurd (hvl ':' (by simp)) (by decide)
  have hshape : (c :: f') ++ (o :: ops') ++ (w :: v') =
      c :: (f' ++ ((o :: ops') ++ (w :: v'))) := by simp
  have hTake1 : ((c :: f') ++ ((o :: ops') ++ (w :: v'))).takeWhile isAsciiLetter
      = c :: f' := by
    rw [takeWhile_append_all hLetter]
    simp [List.takeWhile_cons, hONotLetter]
  have hDrop1 : ((c :: f') ++ ((o :: ops') ++ (w :: v'))).drop (c :: f').length
      = (o :: ops') ++ (w :: v') := List.drop_left _ _
  have hTake2 : ((o :: ops') ++ (w :: v')).takeWhile isOpChar = o :: ops' := by
    rw [takeWhile_append_all hOps]
    simp [List.takeWhile_cons, hWNotOp]
  have hDrop2 : ((o :: ops') ++ (w :: v')).drop (o :: ops').length
      = w :: v' := List.drop_left _ _
  have hTakeV : (w :: v').takeWhile isNoColonValChar = w :: v' :=
    takeWhile_all_eq hvl
  rw [show (c :: f') ++ (o :: ops') ++ (w :: v') =
      (c :: f') ++ ((o :: ops') ++ (w :: v')) by simp]
  have hconsform : (c :: f') ++ ((o :: ops') ++ (w :: v')) =
      c :: (f' ++ ((o :: ops') ++ (w :: v'))) := List.cons_append _ _ _
  rw [hconsform] at hTake1 hDrop1 ⊢
  simp only [tokStep]
  rw [if_neg (by simp [hws] : ¬ isJsWs c = true)]
  rw [if_neg (by simp [hq] : ¬ (c == '"') = true)]
  rw [if_neg (by simp [hlp] : ¬ (c == '(') = true)]
  rw [if_neg (by simp [hrp] : ¬ (c == ')') = true)]
  rw [if_neg (by simp [hmn] : ¬ (c == '-' && qualNot prev) = true)]
  simp only [hTake1, hDrop1, hTake2, hDrop2, hTakeV]
  rw [if_neg (by simp [hWNotColon])]
  rw [if_pos (by simp)]
  rw [jsToLower_of_lower hfl]
  have hstr : ({ data := c :: f' } : String) ++ { data := o :: ops' } ++ ":" ++
      ({ data := w :: v' } : String) =
      { data := (c :: f') ++ (o :: ops') ++ ':' :: (w :: v') } := by
    apply String.ext
    simp [String.data_append]
  rw [hstr]

/-- A whole query consisting of one colon-less field term tokenizes to
the single FIELD token. -/
theorem tokenize_noColon (f ops v : List Char)
    (hf : f ≠ []) (hfl : ∀ x ∈ f, isLowerAlpha x = true)
    (hops : ops ≠ []) (hopsl : ∀ x ∈ ops, isOpChar x = true)
    (hv : v ≠ []) (hvl : ∀ x ∈ v, isNoColonValChar x = true) :
    tokenize (String.mk (f ++ ops ++ v)) =
      [⟨.FIELD, String.mk (f ++ ops ++ ':' :: v), 0,
        f.length + ops.length + v.length⟩] := by
  have hstep := tokStep_noColon none f ops v hf hfl hops hopsl hv hvl
  unfold tokenize
  obtain ⟨c, f', rfl⟩ := List.exists_cons_of_ne_nil hf
  simp only [List.cons_append] at hstep ⊢
  rw [show ((c :: (f' ++ ops ++ v)) : List Char).length + 1 =
    ((f' ++ ops ++ v).length + 1) + 1 by simp]
  rw [tokenizeAux]
  rw [hstep]
  have hdrop : List.drop ((c :: f').length + ops.length + v.length)
      (c :: (f' ++ ops ++ v)) = [] := by
    apply List.drop_eq_nil_of_le
    simp
    omega
  have hnil : ∀ fuel prev pos, tokenizeAux fuel prev pos [] = [] := by
    intro fuel prev pos
    cases fuel <;> simp [tokenizeAux]
  simp [hdrop, tokenizeAux]
  rw [show List.drop (f'.length + 1 + ops.length + v.length)
      (c :: (f' ++ (ops ++ v))) = [] from by
    apply List.drop_eq_nil_of_le
    simp
    omega]
  exact hnil _ _ _

/-- Re-splitting a composed `name ++ operator ++ ":" ++ value` field
text recovers the three parts (the parser's term-construction pattern
agrees with the tokenizer's composition). -/
theorem splitFieldToken_noColon (f ops v : List Char)
    (hf : f ≠ []) (hfl : ∀ x ∈ f, isLowerAlpha x = true)
    (hopsl : ∀ x ∈ ops, isOpChar x = true)
    (hv : v ≠ []) :
    splitFieldToken (String.mk (f ++ ops ++ ':' :: v)) =
      some (String.mk f, String.mk ops, String.mk v) := by
  have hcl : ∀ x ∈ f, isAsciiLetter x = true := fun x hx => by
    simp [isAsciiLetter, hfl x hx]
  have hTake1 : (f ++ (ops ++ ':' :: v)).takeWhile isAsciiLetter = f := by
    rw [takeWhile_append_all hcl]
    rcases ops with _ | ⟨o, t⟩
    · simp only [List.nil_append, List.takeWhile_cons, List.append_nil]
      rw [show isAsciiLetter ':' = false from by decide]
      simp
    · have ho : isAsciiLetter o = false := by
        have := hopsl o (by simp)
        simp only [isOpChar, Bool.or_eq_true, decide_eq_true_eq] at this
        simp [isAsciiLetter, isLowerAlpha, isUpperAlpha]
        omega
      simp [List.takeWhile_cons, ho]
  have hDrop1 : (f ++ (ops ++ ':' :: v)).drop f.length = ops ++ ':' :: v :=
    List.drop_left _ _
  have hTake2 : (ops ++ ':' :: v).takeWhile isOpChar = ops := by
    rw [takeWhile_append_all hopsl]
    simp only [List.takeWhile_cons]
    rw [show isOpChar ':' = false from by decide]
    simp
  have hDrop2 : (ops ++ ':' :: v).drop ops.length = ':' :: v :=
    List.drop_left _ _
  rw [show f ++ ops ++ ':' :: v = f ++ (ops ++ ':' :: v) by simp]
  rw [splitFieldToken]
  simp only [hTake1, hDrop1, hTake2, hDrop2]
  simp [hf, hv, jsToLower_of_lower hfl]

/-- A single FIELD token parses to the corresponding `Field` node. -/
theorem parseTokens_single_field (t : Token) (f op v : String)
    (ht : t.type = .FIELD) (hsp : splitFieldToken t.value = some (f, op, v)) :
    parseTokens [t] = .ok (.field f op v) := by
  simp [parseTokens, parseOrF, parseAndF, parseNotF, parseTermF, andLoopF,
    orLoopF, ht, hsp]

/-- C9: the tokenizer recognizes colon-less field terms (letters, then
comparison characters, then letter/digit/asterisk value characters) and
stores them as `name ++ operator ++ ":" ++ value`, identical in form to
a colon-written field term, so they parse as `Field` nodes; and the
power/toughness fields exist (aliases pow/power/tou/toughness) and
resolve to numeric comparisons (with `pow` against the literal `tou`
comparing power to toughness). -/
theorem C9_colonless_field_terms :
    (∀ f ops v : List Char, f ≠ [] → (∀ x ∈ f, isLowerAlpha x = true) →
      ops ≠ [] → (∀ x ∈ ops, isOpChar x = true) →
      v ≠ [] → (∀ x ∈ v, isNoColonValChar x = true) →
      tokenize (String.mk (f ++ ops ++ v)) =
        [⟨.FIELD, String.mk (f ++ ops ++ ':' :: v), 0,
          f.length + ops.length + v.length⟩] ∧
      parseTokens [⟨.FIELD, String.mk (f ++ ops ++ ':' :: v), 0,
          f.length + ops.length + v.length⟩] =
        .ok (.field (String.mk f) (String.mk ops) (String.mk v))) ∧
    fieldMap.lookup "pow" = some "power" ∧
    fieldMap.lookup "power" = some "power" ∧
    fieldMap.lookup "tou" = some "toughness" ∧
    fieldMap.lookup "toughness" = some "toughness" ∧
    (∀ op v q, jsToLower v ≠ "tou" → jsToLower v ≠ "toughness" →
      jsParseFloat v = some q →
      fieldToCondition true "pow" op v =
        some (sqlNumCmp (fun c => c.power) op q)) ∧
    (∀ op v, jsToLower v = "tou" →
      fieldToCondition true "pow" op v = some sqlPowGtTou) ∧
    (∀ op v q, jsParseFloat v = some q →
      fieldToCondition true "tou" op v =
        some (sqlNumCmp (fun c => c.toughness) op q)) := by
  have hpow : fieldMap.lookup "pow" = some "power" := rfl
  have htou : fieldMap.lookup "tou" = some "toughness" := rfl
  refine ⟨?_, rfl, rfl, rfl, rfl, ?_, ?_, ?_⟩
  · intro f ops v hf hfl hops hopsl hv hvl
    refine ⟨tokenize_noColon f ops v hf hfl hops hopsl hv hvl, ?_⟩
    exact parseTokens_single_field _ _ _ _ rfl
      (splitFieldToken_noColon f ops v hf hfl hopsl hv)
  · intro op v q h1 h2 h3
    simp [fieldToCondition, hpow, h1, h2, h3]
  · intro op v h
    simp [fieldToCondition, hpow, h]
  · intro op v q h
    simp [fieldToCondition, htou, h]

/-- Witness for C9: `pow>=3` tokenizes to the composed FIELD token,
parses to a `Field` node, and compiles to a numeric comparison;
`pow>tou` compiles to the power-greater-than-toughness predicate. -/
theorem C9_colonless_field_terms_witness :
    tokenize "pow>=3" = [⟨.FIELD, "pow>=:3", 0, 6⟩] ∧
    parseTokens [⟨.FIELD, "pow>=:3", 0, 6⟩] = .ok (.field "pow" ">=" "3") ∧
    fieldToCondition true "pow" ">=" "3" =
      some (sqlNumCmp (fun c => c.power) ">=" ⟨3, 0⟩) ∧
    fieldToCondition true "pow" ">" "tou" = some sqlPowGtTou := by
  have h := C9_colonless_field_terms.1 ['p', 'o', 'w'] ['>', '='] ['3']
    (by decide) (by decide) (by decide) (by decide) (by decide) (by decide)
  refine ⟨?_, ?_, ?_, ?_⟩
  · have h1 := h.1
    rw [show String.mk (['p', 'o', 'w'] ++ ['>', '='] ++ ['3']) = "pow>=3"
        from by decide] at h1
    rw [show String.mk (['p', 'o', 'w'] ++ ['>', '='] ++ ':' :: ['3']) = "pow>=:3"
        from by decide] at h1
    simpa using h1
  · have h2 := h.2
    rw [show String.mk (['p', 'o', 'w'] ++ ['>', '='] ++ ':' :: ['3']) = "pow>=:3"
        from by decide] at h2
    rw [show String.mk ['p', 'o', 'w'] = "pow" from by decide] at h2
    rw [show String.mk ['>', '='] = ">=" from by decide] at h2
    rw [show String.mk ['3'] = "3" from by decide] at h2
    simpa using h2
  · exact C9_colonless_field_terms.2.2.2.2.2.1 ">=" "3" ⟨3, 0⟩ (by decide)
      (by decide) (by decide)
  · exact C9_colonless_field_terms.2.2.2.2.2.2.1 ">" "tou" rfl

/-! ### Auxiliary lemmas for double negation (C2) -/

/-- A scan step depends on the preceding character only through the
unary-minus qualification, and only when the current character is `-`. -/
theorem tokStep_prev (p1 p2 : Option Char) (cs : List Char)
    (h : cs.head? = some '-' → qualNot p1 = qualNot p2) :
    tokStep p1 cs = tokStep p2 cs := by
  cases cs with
  | nil => rfl
  | cons c rest =>
    by_cases hc : c = '-'
    · subst hc
      have hq := h rfl
      simp only [tokStep, hq]
    · have hcb : (c == '-') = false := beq_false_of_ne hc
      simp only [tokStep, hcb, Bool.false_and]

/-- Scanning at position `k + pos` yields the tokens of scanning at
`pos` with spans shifted by `k`, for any two previous-character
contexts that agree on minus qualification at the first character. -/
theorem tokenizeAux_shift (fuel : Nat) :
    ∀ (p1 p2 : Option Char) (k pos : Nat) (cs : List Char),
    (cs.head? = some '-' → qualNot p1 = qualNot p2) →
    tokenizeAux fuel p1 (k + pos) cs =
      (tokenizeAux fuel p2 pos cs).map (tokShift k) := by
  induction fuel with
  | zero => intro p1 p2 k pos cs _; simp [tokenizeAux]
  | succ fuel ih =>
    intro p1 p2 k pos cs hh
    cases cs with
    | nil => simp [tokenizeAux]
    | cons c rest =>
      rw [tokenizeAux, tokenizeAux, tokStep_prev p1 p2 _ hh]
      rcases hstep : tokStep p2 (c :: rest) with ⟨tk, n⟩
      have hrec := ih
        (match ((c :: rest).take n).getLast? with
         | some d => some d
         | none => p1)
        (match ((c :: rest).take n).getLast? with
         | some d => some d
         | none => p2)
        k (pos + n) ((c :: rest).drop n)
        (by
          intro hnext
          rcases hl : ((c :: rest).take n).getLast? with _ | d
          · have h0 : n = 0 := by
              rw [List.getLast?_eq_none_iff] at hl
              rcases List.take_eq_nil_iff.mp hl with h0 | h0
              · exact h0
              · exact absurd h0 (List.cons_ne_nil c rest)
            rw [h0, List.drop_zero] at hnext
            exact hh hnext
          · simp [hl])
      simp only []
      rcases tk with _ | ⟨tt, v⟩
      · simp only []
        rw [show k + pos + n = k + (pos + n) by omega]
        exact hrec
      · simp only []
        rw [show k + pos + n = k + (pos + n) by omega]
        rw [hrec]
        simp [tokShift]
        omega

/-- Tokenizing `"- -" ++ A` (for `A` not starting with `-`) yields two
NOT tokens followed by the tokens of `A`, shifted by three positions. -/
theorem tokenize_dashdash (A : String) (hhead : A.data.head? ≠ some '-') :
    tokenize ("- -" ++ A) =
      ⟨.NOT, "-", 0, 1⟩ :: ⟨.NOT, "-", 2, 3⟩ :: (tokenize A).map (tokShift 3) := by
  have hdata : ("- -" ++ A).data = '-' :: ' ' :: '-' :: A.data := by
    rw [String.data_append]
    rw [show "- -".data = ['-', ' ', '-'] from by decide]
    rfl
  unfold tokenize
  rw [hdata]
  rw [show ('-' :: ' ' :: '-' :: A.data).length + 1 = (A.data.length + 3) + 1 by
    simp only [List.length_cons]]
  rw [tokenizeAux]
  rw [show tokStep none ('-' :: ' ' :: '-' :: A.data) = (some (.NOT, "-"), 1)
    from rfl]
  show (⟨.NOT, "-", 0, 0 + 1⟩ : Token) ::
      tokenizeAux (A.data.length + 3) (some '-') (0 + 1) (' ' :: '-' :: A.data) =
      (⟨.NOT, "-", 0, 1⟩ : Token) :: (⟨.NOT, "-", 2, 3⟩ : Token) ::
        List.map (tokShift 3) (tokenizeAux (A.data.length + 1) none 0 A.data)
  congr 1
  rw [show A.data.length + 3 = (A.data.length + 2) + 1 by omega]
  rw [tokenizeAux]
  rw [show tokStep (some '-') (' ' :: '-' :: A.data) = (none, 1) from rfl]
  show tokenizeAux (A.data.length + 2) (some ' ') (0 + 1 + 1) ('-' :: A.data) = _
  rw [show A.data.length + 2 = (A.data.length + 1) + 1 by omega]
  rw [tokenizeAux]
  rw [show tokStep (some ' ') ('-' :: A.data) = (some (.NOT, "-"), 1) from rfl]
  show (⟨.NOT, "-", 0 + 1 + 1, 0 + 1 + 1 + 1⟩ : Token) ::
      tokenizeAux (A.data.length + 1) (some '-') (0 + 1 + 1 + 1) A.data = _
  congr 1
  rw [show (0 + 1 + 1 + 1 : Nat) = 3 + 0 by omega]
  rw [tokenizeAux_shift (A.data.length + 1) (some '-') none 3 0 A.data
    (fun h => absurd h hhead)]

/-- An already-trimmed string drops no leading and no trailing
whitespace. -/
theorem jsTrim_eq_parts (A : String) (hTrim : jsTrim A = A) :
    A.data.dropWhile isJsWs = A.data ∧
    A.data.reverse.dropWhile isJsWs = A.data.reverse := by
  have hd : ((A.data.dropWhile isJsWs).reverse.dropWhile isJsWs).reverse
      = A.data := congrArg String.data hTrim
  have h1 : A.data.dropWhile isJsWs = A.data := by
    have hsub1 : (A.data.dropWhile isJsWs) <:+ A.data := List.dropWhile_suffix _
    have hsub2 : ((A.data.dropWhile isJsWs).reverse.dropWhile isJsWs) <:+
        (A.data.dropWhile isJsWs).reverse := List.dropWhile_suffix _
    have hlen : ((A.data.dropWhile isJsWs).reverse.dropWhile isJsWs).reverse.length
        = A.data.length := by rw [hd]
    have l1 := hsub1.length_le
    have l2 := hsub2.length_le
    simp only [List.length_reverse] at hlen l2
    exact hsub1.eq_of_length (by omega)
  refine ⟨h1, ?_⟩
  rw [h1] at hd
  have := congrArg List.reverse hd
  simpa using this

/-- Prepending `"- -"` to an already-trimmed string changes nothing
under trimming. -/
theorem jsTrim_dashdash (A : String) (hTrim : jsTrim A = A) :
    jsTrim ("- -" ++ A) = "- -" ++ A := by
  obtain ⟨h1, h2⟩ := jsTrim_eq_parts A hTrim
  have hdata : ("- -" ++ A).data = '-' :: ' ' :: '-' :: A.data := by
    rw [String.data_append]
    rw [show "- -".data = ['-', ' ', '-'] from by decide]
    rfl
  apply String.ext
  rw [show (jsTrim ("- -" ++ A)).data =
    (((("- -" ++ A).data.dropWhile isJsWs).reverse.dropWhile isJsWs).reverse)
    from rfl]
  rw [hdata]
  rw [List.dropWhile_cons_of_neg (by decide : ¬ isJsWs '-' = true)]
  have hrevshape : ('-' :: ' ' :: '-' :: A.data).reverse =
      A.data.reverse ++ ['-', ' ', '-'] := by
    simp
  rw [hrevshape]
  have hdrop2 : (A.data.reverse ++ ['-', ' ', '-']).dropWhile isJsWs =
      A.data.reverse ++ ['-', ' ', '-'] := by
    rcases hrev : A.data.reverse with _ | ⟨x, xs⟩
    · simp only [List.nil_append]
      exact List.dropWhile_cons_of_neg (by decide)
    · rw [hrev] at h2
      have hx : ¬ isJsWs x = true := by
        have := List.dropWhile_eq_self_iff.mp h2 (by simp)
        simpa using this
      rw [List.cons_append]
      exact List.dropWhile_cons_of_neg hx
  rw [hdrop2]
  rw [show (A.data.reverse ++ ['-', ' ', '-']).reverse =
    '-' :: ' ' :: '-' :: A.data from by simp]

theorem predEquiv_refl (o : Option (Card → Option Bool)) : predEquiv o o := by
  cases o <;> simp [predEquiv]

theorem condEquiv_refl (a : Ast) : condEquiv a a := fun _ => predEquiv_refl _

/-- SQL NOT is an involution on three-valued results. -/
theorem sqlNot3_sqlNot3 (v : Option Bool) : sqlNot3 (sqlNot3 v) = v := by
  rcases v with _ | b
  · rfl
  · simp [sqlNot3]

/-- Double negation compiles to an equivalent condition. -/
theorem condEquiv_notnot (x : Ast) : condEquiv (.not (.not x)) x := by
  intro d
  rcases h : astToCondition d x with _ | p
  · simp [astToCondition, h, predEquiv]
  · simp [astToCondition, h, predEquiv, sqlNot3_sqlNot3]

theorem condEquiv_and {l l' r r' : Ast} (hl : condEquiv l l')
    (hr : condEquiv r r') : condEquiv (.and l r) (.and l' r') := by
  intro d
  have hld := hl d
  have hrd := hr d
  rcases h1 : astToCondition d l with _ | lp <;>
    rcases h2 : astToCondition d l' with _ | lp' <;>
    rcases h3 : astToCondition d r with _ | rp <;>
    rcases h4 : astToCondition d r' with _ | rp' <;>
    simp only [astToCondition, h1, h2, h3, h4, predEquiv] at hld hrd ⊢ <;>
    first
      | trivial
      | exact hld.elim
      | exact hrd.elim
      | exact hld
      | exact hrd
      | (intro c; rw [hld c, hrd c])

theorem condEquiv_or {l l' r r' : Ast} (hl : condEquiv l l')
    (hr : condEquiv r r') : condEquiv (.or l r) (.or l' r') := by
  intro d
  have hld := hl d
  have hrd := hr d
  rcases h1 : astToCondition d l with _ | lp <;>
    rcases h2 : astToCondition d l' with _ | lp' <;>
    rcases h3 : astToCondition d r with _ | rp <;>
    rcases h4 : astToCondition d r' with _ | rp' <;>
    simp only [astToCondition, h1, h2, h3, h4, predEquiv] at hld hrd ⊢ <;>
    first
      | trivial
      | exact hld.elim
      | exact hrd.elim
      | exact hld
      | exact hrd
      | (intro c; rw [hld c, hrd c])

/-- Two leading NOT tokens wrap the first parsed factor in a double
negation. -/
theorem parseNotF_notnot (t1 t2 : Token) (ts : List Token)
    (h1 : t1.type = .NOT) (h2 : t2.type = .NOT) {a : Ast} {rem : List Token}
    (h : parseNotF ts = .ok (a, rem)) :
    parseNotF (t1 :: t2 :: ts) = .ok (.not (.not a), rem) := by
  rw [parseNotF, if_pos h1]
  rw [show parseNotF (t2 :: ts) = .ok (.not a, rem) from by
    rw [parseNotF, if_pos h2, h]]

/-- The implicit-AND loop started from equivalent accumulated nodes
produces equivalent results (same remaining tokens). -/
theorem andLoopF_congr : ∀ (n : Nat) (ts : List Token), ts.length ≤ n →
    ∀ l l' a rem, condEquiv l' l → andLoopF l ts = .ok (a, rem) →
    ∃ a', andLoopF l' ts = .ok (a', rem) ∧ condEquiv a' a := by
  intro n
  induction n with
  | zero =>
    intro ts hts l l' a rem he h
    have hnil : ts = [] := List.eq_nil_of_length_eq_zero (Nat.le_zero.mp hts)
    subst hnil
    rw [andLoopF] at h ⊢
    obtain ⟨rfl, rfl⟩ : l = a ∧ ([] : List Token) = rem := by simpa using h
    exact ⟨l', rfl, he⟩
  | succ n ih =>
    intro ts hts l l' a rem he h
    cases ts with
    | nil =>
      rw [andLoopF] at h ⊢
      obtain ⟨rfl, rfl⟩ : l = a ∧ ([] : List Token) = rem := by simpa using h
      exact ⟨l', rfl, he⟩
    | cons t rest =>
      rw [andLoopF] at h ⊢
      by_cases ht : (t.type = .OR || t.type = .RPAREN : Bool) = true
      · rw [if_pos ht] at h ⊢
        obtain ⟨rfl, rfl⟩ : l = a ∧ t :: rest = rem := by simpa using h
        exact ⟨l', rfl, he⟩
      · rw [if_neg ht] at h ⊢
        rcases hn : parseNotF (t :: rest) with e | ⟨r, remN⟩
        · rw [hn] at h
          exact absurd h (by simp)
        · rw [hn] at h
          replace h : (if _h : remN.length < rest.length + 1
              then andLoopF (l.and r) remN
              else Except.error "parser invariant violation") =
              Except.ok (a, rem) := h
          show ∃ a', (if _h : remN.length < rest.length + 1
              then andLoopF (l'.and r) remN
              else Except.error "parser invariant violation") =
              Except.ok (a', rem) ∧ condEquiv a' a
          by_cases hg : remN.length < rest.length + 1
          · rw [dif_pos hg] at h ⊢
            have hlen : remN.length ≤ n := by
              simp only [List.length_cons] at hts
              omega
            exact ih remN hlen (.and l r) (.and l' r) a rem
              (condEquiv_and he (condEquiv_refl r)) h
          · rw [dif_neg hg] at h
            exact absurd h (by simp)

/-- The OR loop started from equivalent accumulated nodes produces
equivalent results (same remaining tokens). -/
theorem orLoopF_congr : ∀ (n : Nat) (ts : List Token), ts.length ≤ n →
    ∀ l l' a rem, condEquiv l' l → orLoopF l ts = .ok (a, rem) →
    ∃ a', orLoopF l' ts = .ok (a', rem) ∧ condEquiv a' a := by
  intro n
  induction n with
  | zero =>
    intro ts hts l l' a rem he h
    have hnil : ts = [] := List.eq_nil_of_length_eq_zero (Nat.le_zero.mp hts)
    subst hnil
    rw [orLoopF] at h ⊢
    obtain ⟨rfl, rfl⟩ : l = a ∧ ([] : List Token) = rem := by simpa using h
    exact ⟨l', rfl, he⟩
  | succ n ih =>
    intro ts hts l l' a rem he h
    cases ts with
    | nil =>
      rw [orLoopF] at h ⊢
      obtain ⟨rfl, rfl⟩ : l = a ∧ ([] : List Token) = rem := by simpa using h
      exact ⟨l', rfl, he⟩
    | cons t rest =>
      rw [orLoopF] at h ⊢
      by_cases ht : t.type = .OR
      · rw [if_pos ht] at h ⊢
        rcases hn : parseAndF rest with e | ⟨r, remN⟩
        · rw [hn] at h
          exact absurd h (by simp)
        · rw [hn] at h
          replace h : (if _h : remN.length < rest.length + 1
              then orLoopF (l.or r) remN
              else Except.error "parser invariant violation") =
              Except.ok (a, rem) := h
          show ∃ a', (if _h : remN.length < rest.length + 1
              then orLoopF (l'.or r) remN
              else Except.error "parser invariant violation") =
              Except.ok (a', rem) ∧ condEquiv a' a
          by_cases hg : remN.length < rest.length + 1
          · rw [dif_pos hg] at h ⊢
            have hlen : remN.length ≤ n := by
              simp only [List.length_cons] at hts
              omega
            exact ih remN hlen (.or l r) (.or l' r) a rem
              (condEquiv_or he (condEquiv_refl r)) h
          · rw [dif_neg hg] at h
            exact absurd h (by simp)
      · rw [if_neg ht] at h ⊢
        obtain ⟨rfl, rfl⟩ : l = a ∧ t :: rest = rem := by simpa using h
        exact ⟨l', rfl, he⟩

/-- Prepending two NOT tokens to a successfully parsed expression
yields a successful parse of an equivalent expression, with the same
remaining tokens. -/
theorem parseOrF_notnot (t1 t2 : Token) (ts : List Token)
    (h1 : t1.type = .NOT) (h2 : t2.type = .NOT) {a : Ast} {rem : List Token}
    (h : parseOrF ts = .ok (a, rem)) :
    ∃ a', parseOrF (t1 :: t2 :: ts) = .ok (a', rem) ∧ condEquiv a' a := by
  rw [parseOrF] at h
  rcases hA : parseAndF ts with e | ⟨l1, rem1⟩
  · rw [hA] at h
    exact absurd h (by simp)
  rw [hA] at h
  replace h : (if _h : rem1.length < ts.length then orLoopF l1 rem1
      else Except.error "parser invariant violation") = Except.ok (a, rem) := h
  by_cases hg : rem1.length < ts.length
  swap
  · rw [dif_neg hg] at h
    exact absurd h (by simp)
  rw [dif_pos hg] at h
  rw [parseAndF] at hA
  rcases hN : parseNotF ts with e | ⟨l0, rem0⟩
  · rw [hN] at hA
    exact absurd hA (by simp)
  rw [hN] at hA
  replace hA : (if _h : rem0.length < ts.length then andLoopF l0 rem0
      else Except.error "parser invariant violation") = Except.ok (l1, rem1) := hA
  by_cases hg0 : rem0.length < ts.length
  swap
  · rw [dif_neg hg0] at hA
    exact absurd hA (by simp)
  rw [dif_pos hg0] at hA
  have hN2 := parseNotF_notnot t1 t2 ts h1 h2 hN
  obtain ⟨l1', hAnd', heq1⟩ := andLoopF_congr rem0.length rem0 (le_refl _)
    l0 (.not (.not l0)) l1 rem1 (condEquiv_notnot l0) hA
  obtain ⟨a', hOr', heq2⟩ := orLoopF_congr rem1.length rem1 (le_refl _)
    l1 l1' a rem heq1 h
  refine ⟨a', ?_, heq2⟩
  rw [parseOrF]
  rw [show parseAndF (t1 :: t2 :: ts) = .ok (l1', rem1) from by
    rw [parseAndF, hN2]
    show (if _h : rem0.length < (t1 :: t2 :: ts).length
        then andLoopF (l0.not.not) rem0
        else Except.error "parser invariant violation") = Except.ok (l1', rem1)
    rw [dif_pos (by simp only [List.length_cons]; omega :
      rem0.length < (t1 :: t2 :: ts).length)]
    exact hAnd']
  show (if _h : rem1.length < (t1 :: t2 :: ts).length
      then orLoopF l1' rem1
      else Except.error "parser invariant violation") = Except.ok (a', rem)
  rw [dif_pos (by simp only [List.length_cons]; omega :
    rem1.length < (t1 :: t2 :: ts).length)]
  exact hOr'

/-- Success of the parsing functions depends only on the tokens' types
and values: any map that preserves both (such as a span shift) preserves
the parsed node, and maps the remaining tokens. -/
theorem parse_map_ok (σ : Token → Token)
    (hty : ∀ t, (σ t).type = t.type) (hval : ∀ t, (σ t).value = t.value) :
    ∀ (n : Nat) (ts : List Token), ts.length ≤ n →
    (∀ a rem, parseTermF ts = .ok (a, rem) →
      parseTermF (ts.map σ) = .ok (a, rem.map σ)) ∧
    (∀ a rem, parseNotF ts = .ok (a, rem) →
      parseNotF (ts.map σ) = .ok (a, rem.map σ)) ∧
    (∀ l a rem, andLoopF l ts = .ok (a, rem) →
      andLoopF l (ts.map σ) = .ok (a, rem.map σ)) ∧
    (∀ a rem, parseAndF ts = .ok (a, rem) →
      parseAndF (ts.map σ) = .ok (a, rem.map σ)) ∧
    (∀ l a rem, orLoopF l ts = .ok (a, rem) →
      orLoopF l (ts.map σ) = .ok (a, rem.map σ)) ∧
    (∀ a rem, parseOrF ts = .ok (a, rem) →
      parseOrF (ts.map σ) = .ok (a, rem.map σ)) := by
  intro n
  induction n with
  | zero =>
    intro ts hts
    have hnil : ts = [] := List.eq_nil_of_length_eq_zero (Nat.le_zero.mp hts)
    subst hnil
    refine ⟨?_, ?_, ?_, ?_, ?_, ?_⟩
    · intro a rem h; rw [parseTermF] at h; exact absurd h (by simp)
    · intro a rem h; rw [parseNotF, parseTermF] at h; exact absurd h (by simp)
    · intro l a rem h
      rw [andLoopF] at h
      obtain ⟨rfl, rfl⟩ : l = a ∧ ([] : List Token) = rem := by simpa using h
      rw [List.map_nil, andLoopF]
    · intro a rem h
      rw [parseAndF, parseNotF, parseTermF] at h
      exact absurd h (by simp)
    · intro l a rem h
      rw [orLoopF] at h
      obtain ⟨rfl, rfl⟩ : l = a ∧ ([] : List Token) = rem := by simpa using h
      rw [List.map_nil, orLoopF]
    · intro a rem h
      rw [parseOrF, parseAndF, parseNotF, parseTermF] at h
      exact absurd h (by simp)
  | succ n ih =>
    intro ts hts
    have hTerm : ∀ a rem, parseTermF ts = .ok (a, rem) →
        parseTermF (ts.map σ) = .ok (a, rem.map σ) := by
      intro a rem h
      cases ts with
      | nil => rw [parseTermF] at h; exact absurd h (by simp)
      | cons t rest =>
        rw [parseTermF] at h
        rw [List.map_cons, parseTermF, hty t, hval t]
        cases htt : t.type <;> rw [htt] at h
        case LPAREN =>
          rcases hOr : parseOrF rest with e | ⟨a1, rem1⟩
          · rw [hOr] at h; exact absurd h (by simp)
          · rw [hOr] at h
            have hrest : rest.length ≤ n := by
              simp only [List.length_cons] at hts; omega
            rw [(ih rest hrest).2.2.2.2.2 a1 rem1 hOr]
            rcases rem1 with _ | ⟨r, rem2⟩
            · exact absurd h (by simp)
            · by_cases hr : r.type = TokenType.RPAREN
              · replace h : (if r.type = TokenType.RPAREN then Except.ok (a1, rem2)
                    else Except.error "Unmatched opening parenthesis") =
                    Except.ok (a, rem) := h
                rw [if_pos hr] at h
                show (if (σ r).type = TokenType.RPAREN
                    then Except.ok (a1, List.map σ rem2)
                    else Except.error "Unmatched opening parenthesis") =
                    Except.ok (a, List.map σ rem)
                rw [hty r, if_pos hr]
                obtain ⟨rfl, rfl⟩ : a1 = a ∧ rem2 = rem := by simpa using h
                rfl
              · replace h : (if r.type = TokenType.RPAREN then Except.ok (a1, rem2)
                    else Except.error "Unmatched opening parenthesis") =
                    Except.ok (a, rem) := h
                rw [if_neg hr] at h
                exact absurd h (by simp)
        case FIELD =>
          rcases hsf : splitFieldToken t.value with _ | ⟨f, op, v⟩
          · rw [hsf] at h; exact absurd h (by simp)
          · rw [hsf] at h
            replace h : Except.ok (Ast.field f op v, rest) = Except.ok (a, rem) := h
            obtain ⟨rfl, rfl⟩ : Ast.field f op v = a ∧ rest = rem := by simpa using h
            rfl
        case QUOTED_STRING =>
          replace h : Except.ok (Ast.plainText t.value, rest) = Except.ok (a, rem) := h
          obtain ⟨rfl, rfl⟩ : Ast.plainText t.value = a ∧ rest = rem := by
            simpa using h
          rfl
        case PLAIN_TEXT =>
          replace h : Except.ok (Ast.plainText t.value, rest) = Except.ok (a, rem) := h
          obtain ⟨rfl, rfl⟩ : Ast.plainText t.value = a ∧ rest = rem := by
            simpa using h
          rfl
        all_goals exact absurd h (by simp)
    have hNot : ∀ a rem, parseNotF ts = .ok (a, rem) →
        parseNotF (ts.map σ) = .ok (a, rem.map σ) := by
      intro a rem h
      cases ts with
      | nil => rw [parseNotF, parseTermF] at h; exact absurd h (by simp)
      | cons t rest =>
        rw [parseNotF] at h
        rw [List.map_cons, parseNotF, hty t]
        by_cases ht : t.type = TokenType.NOT
        · rw [if_pos ht] at h ⊢
          rcases hn : parseNotF rest with e | ⟨a1, rem1⟩
          · rw [hn] at h; exact absurd h (by simp)
          · rw [hn] at h
            replace h : Except.ok (Ast.not a1, rem1) = Except.ok (a, rem) := h
            obtain ⟨rfl, rfl⟩ : Ast.not a1 = a ∧ rem1 = rem := by simpa using h
            have hrest : rest.length ≤ n := by
              simp only [List.length_cons] at hts; omega
            rw [(ih rest hrest).2.1 a1 rem1 hn]
        · rw [if_neg ht] at h ⊢
          exact hTerm a rem h
    have handLoop : ∀ l a rem, andLoopF l ts = .ok (a, rem) →
        andLoopF l (ts.map σ) = .ok (a, rem.map σ) := by
      intro l a rem h
      cases ts with
      | nil =>
        rw [andLoopF] at h
        obtain ⟨rfl, rfl⟩ : l = a ∧ ([] : List Token) = rem := by simpa using h
        rw [List.map_nil, andLoopF]
      | cons t rest =>
        rw [andLoopF] at h
        rw [List.map_cons, andLoopF, hty t]
        by_cases htc : (t.type = TokenType.OR || t.type = TokenType.RPAREN : Bool)
            = true
        · rw [if_pos htc] at h ⊢
          obtain ⟨rfl, rfl⟩ : l = a ∧ t :: rest = rem := by simpa using h
          rw [List.map_cons]
        · rw [if_neg htc] at h ⊢
          rcases hn : parseNotF (t :: rest) with e | ⟨r, remN⟩
          · rw [hn] at h; exact absurd h (by simp)
          · rw [hn] at h
            replace h : (if _h : remN.length < rest.length + 1
                then andLoopF (l.and r) remN
                else Except.error "parser invariant violation") =
                Except.ok (a, rem) := h
            by_cases hg : remN.length < rest.length + 1
            swap
            · rw [dif_neg hg] at h; exact absurd h (by simp)
            rw [dif_pos hg] at h
            rw [show parseNotF (σ t :: List.map σ rest) =
                Except.ok (r, List.map σ remN) from hNot r remN hn]
            show (if _h : (List.map σ remN).length < (List.map σ rest).length + 1
                then andLoopF (l.and r) (List.map σ remN)
                else Except.error "parser invariant violation") =
                Except.ok (a, List.map σ rem)
            rw [dif_pos (by simpa using hg)]
            have hlen : remN.length ≤ n := by
              simp only [List.length_cons] at hts; omega
            exact (ih remN hlen).2.2.1 (l.and r) a rem h
    have hparseAnd : ∀ a rem, parseAndF ts = .ok (a, rem) →
        parseAndF (ts.map σ) = .ok (a, rem.map σ) := by
      intro a rem h
      rw [parseAndF] at h
      rw [parseAndF]
      rcases hn : parseNotF ts with e | ⟨l, rem1⟩
      · rw [hn] at h; exact absurd h (by simp)
      · rw [hn] at h
        replace h : (if _h : rem1.length < ts.length then andLoopF l rem1
            else Except.error "parser invariant violation") =
            Except.ok (a, rem) := h
        by_cases hg : rem1.length < ts.length
        swap
        · rw [dif_neg hg] at h; exact absurd h (by simp)
        rw [dif_pos hg] at h
        rw [hNot l rem1 hn]
        show (if _h : (List.map σ rem1).length < (List.map σ ts).length
            then andLoopF l (List.map σ rem1)
            else Except.error "parser invariant violation") =
            Except.ok (a, List.map σ rem)
        rw [dif_pos (by simpa using hg)]
        have hlen : rem1.length ≤ n := by omega
        exact (ih rem1 hlen).2.2.1 l a rem h
    have horLoop : ∀ l a rem, orLoopF l ts = .ok (a, rem) →
        orLoopF l (ts.map σ) = .ok (a, rem.map σ) := by
      intro l a rem h
      cases ts with
      | nil =>
        rw [orLoopF] at h
        obtain ⟨rfl, rfl⟩ : l = a ∧ ([] : List Token) = rem := by simpa using h
        rw [List.map_nil, orLoopF]
      | cons t rest =>
        rw [orLoopF] at h
        rw [List.map_cons, orLoopF, hty t]
        by_cases htc : t.type = TokenType.OR
        · rw [if_pos htc] at h ⊢
          rcases hn : parseAndF rest with e | ⟨r, remN⟩
          · rw [hn] at h; exact absurd h (by simp)
          · rw [hn] at h
            replace h : (if _h : remN.length < rest.length + 1
                then orLoopF (l.or r) remN
                else Except.error "parser invariant violation") =
                Except.ok (a, rem) := h
            by_cases hg : remN.length < rest.length + 1
            swap
            · rw [dif_neg hg] at h; exact absurd h (by simp)
            rw [dif_pos hg] at h
            have hrest : rest.length ≤ n := by
              simp only [List.length_cons] at hts; omega
            rw [(ih rest hrest).2.2.2.1 r remN hn]
            show (if _h : (List.map σ remN).length < (List.map σ rest).length + 1
                then orLoopF (l.or r) (List.map σ remN)
                else Except.error "parser invariant violation") =
                Except.ok (a, List.map σ rem)
            rw [dif_pos (by simpa using hg)]
            have hlen : remN.length ≤ n := by
              simp only [List.length_cons] at hts; omega
            exact (ih remN hlen).2.2.2.2.1 (l.or r) a rem h
        · rw [if_neg htc] at h ⊢
          obtain ⟨rfl, rfl⟩ : l = a ∧ t :: rest = rem := by simpa using h
          rw [List.map_cons]
    have hparseOr : ∀ a rem, parseOrF ts = .ok (a, rem) →
        parseOrF (ts.map σ) = .ok (a, rem.map σ) := by
      intro a rem h
      rw [parseOrF] at h
      rw [parseOrF]
      rcases hn : parseAndF ts with e | ⟨l, rem1⟩
      · rw [hn] at h; exact absurd h (by simp)
      · rw [hn] at h
        replace h : (if _h : rem1.length < ts.length then orLoopF l rem1
            else Except.error "parser invariant violation") =
            Except.ok (a, rem) := h
        by_cases hg : rem1.length < ts.length
        swap
        · rw [dif_neg hg] at h; exact absurd h (by simp)
        rw [dif_pos hg] at h
        rw [hparseAnd l rem1 hn]
        show (if _h : (List.map σ rem1).length < (List.map σ ts).length
            then orLoopF l (List.map σ rem1)
            else Except.error "parser invariant violation") =
            Except.ok (a, List.map σ rem)
        rw [dif_pos (by simpa using hg)]
        have hlen : rem1.length ≤ n := by omega
        exact (ih rem1 hlen).2.2.2.2.1 l a rem h
    exact ⟨hTerm, hNot, handLoop, hparseAnd, horLoop, hparseOr⟩

/-- Full-parse transfer: if a token list parses completely, prepending
two NOT tokens to its span-shifted copy parses completely to an
equivalent node. -/
theorem parseTokens_notnot_map (t1 t2 : Token) (h1 : t1.type = .NOT)
    (h2 : t2.type = .NOT) (ts : List Token) {a : Ast}
    (h : parseTokens ts = .ok a) :
    ∃ a', parseTokens (t1 :: t2 :: ts.map (tokShift 3)) = .ok a' ∧
      condEquiv a' a := by
  rw [parseTokens] at h
  rcases hOr : parseOrF ts with e | ⟨a0, rem0⟩
  · rw [hOr] at h; exact absurd h (by simp)
  rw [hOr] at h
  rcases rem0 with _ | ⟨r, rrest⟩
  swap
  · replace h : Except.error ("Unexpected token at position " ++ toString r.start)
        = Except.ok a := h
    exact absurd h (by simp)
  replace h : Except.ok a0 = Except.ok a := h
  obtain rfl : a0 = a := by simpa using h
  have hmap : parseOrF (ts.map (tokShift 3)) = .ok (a0, []) := by
    have hm := (parse_map_ok (tokShift 3) (fun _ => rfl) (fun _ => rfl)
      ts.length ts (le_refl _)).2.2.2.2.2 a0 [] hOr
    simpa using hm
  obtain ⟨a', hOr', heq⟩ :=
    parseOrF_notnot t1 t2 (ts.map (tokShift 3)) h1 h2 hmap
  refine ⟨a', ?_, heq⟩
  rw [parseTokens, hOr']

/-- C2 (counterexample to the claim as stated): in `--x` the second `-`
is immediately preceded by another `-` (neither start-of-input,
whitespace, nor `(`), so it is not a NOT token but the first character
of the plain-text word `-x`.  Against a corpus whose one card is named
`zzz` and has a non-NULL oracle text, the query `x` matches nothing,
while `--x` parses as NOT `-x`, whose inner condition is FALSE (not
UNKNOWN) on that row, so the SQL NOT is TRUE and the card is returned:
`search("--x")` differs from `search("x")`. -/
theorem C2_double_negation_counterexample :
    searchF "x" 10 [cardZ] = .ok [] ∧
    searchF "--x" 10 [cardZ] = .ok [cardZ] ∧
    searchF "--x" 10 [cardZ] ≠ searchF "x" 10 [cardZ] := by
  have hqx : parseQueryF "x" = .ok (.plainText "x") := by
    have ht : tokenize (jsTrim "x") = [⟨.PLAIN_TEXT, "x", 0, 1⟩] := by decide
    simp [parseQueryF, ht, parseTokens, parseOrF, parseAndF, parseNotF,
      parseTermF, andLoopF, orLoopF]
    decide
  have hq2 : parseQueryF "--x" = .ok (.not (.plainText "-x")) := by
    have ht : tokenize (jsTrim "--x") =
        [⟨.NOT, "-", 0, 1⟩, ⟨.PLAIN_TEXT, "-x", 1, 3⟩] := by decide
    simp [parseQueryF, ht, parseTokens, parseOrF, parseAndF, parseNotF,
      parseTermF, andLoopF, orLoopF]
    decide
  have h1 : searchF "x" 10 [cardZ] = .ok [] := by
    rw [searchF, hqx]; rfl
  have h2 : searchF "--x" 10 [cardZ] = .ok [cardZ] := by
    rw [searchF, hq2]; rfl
  exact ⟨h1, h2, by rw [h1, h2]; simp⟩

/-- C2 (amended): double negation written as two separate NOT tokens is
a no-op.  For an already-trimmed query `A` that does not begin with
`-`, prepending `"- -"` (each minus preceded by start-of-input resp.
whitespace, hence each a NOT token) preserves a successful search
result on every corpus and limit.  (In `"--A"` the second minus is
preceded by `-`, so it is not a NOT token but part of the following
word — see the counterexample.) -/
theorem C2_double_negation_amended (A : String) (limit : Nat)
    (corpus : List Card) (res : List Card)
    (hTrim : jsTrim A = A) (hhead : A.data.head? ≠ some '-')
    (h : searchF A limit corpus = .ok res) :
    searchF ("- -" ++ A) limit corpus = .ok res := by
  rw [searchF] at h
  rcases hq : parseQueryF A with e | ast
  · rw [hq] at h; exact absurd h (by simp)
  rw [hq] at h
  rw [parseQueryF] at hq
  by_cases h0 : (jsTrim A).length = 0
  · rw [if_pos h0] at hq; exact absurd hq (by simp)
  rw [if_neg h0] at hq
  rw [hTrim] at hq
  replace hq : (if (tokenize A).length = 0
      then Except.error "Query parsing error: Query contains no valid tokens"
      else match parseTokens (tokenize A) with
        | Except.ok a => Except.ok a
        | Except.error m => Except.error ("Query parsing error: " ++ m)) =
      Except.ok ast := hq
  by_cases h1 : (tokenize A).length = 0
  · rw [if_pos h1] at hq; exact absurd hq (by simp)
  rw [if_neg h1] at hq
  rcases hpt : parseTokens (tokenize A) with m | ast0
  · rw [hpt] at hq; exact absurd hq (by simp)
  rw [hpt] at hq
  replace hq : Except.ok ast0 = Except.ok ast := hq
  obtain rfl : ast0 = ast := by simpa using hq
  replace h : (match astToCondition true ast0 with
      | none => Except.ok ([] : List Card)
      | some p =>
        Except.ok ((corpus.filter (fun c => p c == some true)).take limit)) =
      Except.ok res := h
  obtain ⟨a', hpt2, heq⟩ := parseTokens_notnot_map ⟨.NOT, "-", 0, 1⟩
    ⟨.NOT, "-", 2, 3⟩ rfl rfl (tokenize A) hpt
  have hq2 : parseQueryF ("- -" ++ A) = .ok a' := by
    rw [parseQueryF]
    rw [jsTrim_dashdash A hTrim]
    rw [if_neg (show ¬("- -" ++ A).length = 0 from by
      rw [String.length_append, show ("- -").length = 3 from rfl]; omega)]
    simp only [tokenize_dashdash A hhead]
    rw [if_neg (by simp)]
    rw [hpt2]
  rw [searchF, hq2]
  show (match astToCondition true a' with
      | none => Except.ok ([] : List Card)
      | some p =>
        Except.ok ((corpus.filter (fun c => p c == some true)).take limit)) =
      Except.ok res
  have hpe := heq true
  rcases hc : astToCondition true ast0 with _ | p
  · rw [hc] at h hpe
    rcases hc' : astToCondition true a' with _ | p'
    · exact h
    · rw [hc'] at hpe
      exact absurd hpe (by simp [predEquiv])
  · rw [hc] at h hpe
    rcases hc' : astToCondition true a' with _ | p'
    · rw [hc'] at hpe
      exact absurd hpe (by simp [predEquiv])
    · rw [hc'] at hpe
      simp only [predEquiv] at hpe
      replace h : Except.ok ((corpus.filter (fun c => p c == some true)).take
        limit) = Except.ok res := h
      show Except.ok ((corpus.filter (fun c => p' c == some true)).take limit) =
        Except.ok res
      rw [List.filter_congr (fun c _ => by rw [hpe c])]
      exact h

/-- Witness for the amended C2 at a concrete input: `x` is trimmed,
does not begin with `-`, returns no rows on the `zzz` corpus, and so
does `- -x`. -/
theorem C2_double_negation_amended_witness :
    jsTrim "x" = "x" ∧ "x".data.head? ≠ some '-' ∧
    searchF "x" 10 [cardZ] = .ok [] ∧
    searchF ("- -" ++ "x") 10 [cardZ] = .ok [] := by
  have hqx : parseQueryF "x" = .ok (.plainText "x") := by
    have ht : tokenize (jsTrim "x") = [⟨.PLAIN_TEXT, "x", 0, 1⟩] := by decide
    simp [parseQueryF, ht, parseTokens, parseOrF, parseAndF, parseNotF,
      parseTermF, andLoopF, orLoopF]
    decide
  have hs : searchF "x" 10 [cardZ] = .ok [] := by
    rw [searchF, hqx]; rfl
  exact ⟨by decide, by decide, hs,
    C2_double_negation_amended "x" 10 [cardZ] [] (by decide) (by decide) hs⟩
